import Mathlib

/-!
# FFserver connection runtime: packet validation, dispatch, timers, telemetry

A shallow embedding of the parts of `core/CNProtocol.hpp`,
`servers/CNShardServer.cpp` and `servers/Monitor.cpp` that the specification's
properties talk about, followed by the theorems that settle them.

Conventions of the embedding

* `size_t` is the 64-bit unsigned type of the LP64 targets the server is built
  for: a `Nat` below `2 ^ 64`, every arithmetic result reduced `% SIZE_MOD`.
* `int32_t` and `time_t` values are `Int`; theorems state the range they need.
* `CN_PACKET_BUFFER_SIZE` (from `Defines.hpp`), `settings::TIMEOUT`,
  `settings::VERBOSITY` and the packet type identifiers are declared outside
  the embedded files, so they are parameters of the definitions that use them.
-/

set_option autoImplicit false
set_option maxRecDepth 8000

namespace CNProtocol

/-! ## `validOutVarPacket` / `validInVarPacket` (CNProtocol.hpp, lines 94-128) -/

/-- Number of values of `size_t`. -/
def SIZE_MOD : Nat := 2 ^ 64

/-- Integral conversion to `size_t`: reduction modulo `2 ^ 64`
(this is what `(size_t)npayloads` and the usual arithmetic conversions do). -/
def toSizeT (z : Int) : Nat := (z % (SIZE_MOD : Int)).toNat

/-- The `size_t` product `npayloads * plsize` (`npayloads` is converted first). -/
def trailingSize (npayloads : Int) (plsize : Nat) : Nat :=
  (toSizeT npayloads * plsize) % SIZE_MOD

/-- The guard both validators start with:
`npayloads > 0 && (CN_PACKET_BUFFER_SIZE - 8) / (size_t)npayloads < plsize`.
`CN_PACKET_BUFFER_SIZE - 8` is an `int` expression converted to `size_t`. -/
def mulOverflowGuard (CN_PACKET_BUFFER_SIZE : Nat) (npayloads : Int) (plsize : Nat) : Bool :=
  decide (npayloads > 0) &&
    decide (toSizeT ((CN_PACKET_BUFFER_SIZE : Int) - 8) / toSizeT npayloads < plsize)

/-- Embedding of `validOutVarPacket(base, npayloads, plsize)`. -/
def validOutVarPacket (CN_PACKET_BUFFER_SIZE : Nat) (base : Nat) (npayloads : Int)
    (plsize : Nat) : Bool :=
  -- check for multiplication overflow
  if mulOverflowGuard CN_PACKET_BUFFER_SIZE npayloads plsize then false
  else
    let trailing := trailingSize npayloads plsize
    -- does it fit in a packet?
    if (base + trailing) % SIZE_MOD > toSizeT ((CN_PACKET_BUFFER_SIZE : Int) - 8) then false
    else true

/-- Embedding of `validInVarPacket(base, npayloads, plsize, datasize)`. -/
def validInVarPacket (CN_PACKET_BUFFER_SIZE : Nat) (base : Nat) (npayloads : Int)
    (plsize : Nat) (datasize : Nat) : Bool :=
  -- check for multiplication overflow
  if mulOverflowGuard CN_PACKET_BUFFER_SIZE npayloads plsize then false
  else
    let trailing := trailingSize npayloads plsize
    -- make sure size is exact
    if datasize ≠ (base + trailing) % SIZE_MOD then false
    else true

end CNProtocol

/-! ## Data shared by the shard server and the monitor -/

/-- A connection (`CNSocket*`), identified by a number. -/
abbrev CNSocket := Nat

/-- The fields of `Player` that the embedded code reads or writes. -/
structure Player where
  /-- Field `lastHeartbeat`: time of the last packet, 0 when none was stamped. -/
  lastHeartbeat : Int
  /-- Field `hidden`: left out of the telemetry frame when set. -/
  hidden : Bool
  /-- Field `x`. -/
  x : Int
  /-- Field `y`. -/
  y : Int
  /-- Data from which `PlayerManager::getPlayerName` builds the name. -/
  nameData : List Char
deriving DecidableEq, Repr

namespace CNShardServer

/-! ## `CNShardServer` (CNShardServer.cpp) -/

/-- The fields of `CNPacketData` that dispatch looks at. -/
structure CNPacketData where
  type : Nat
  size : Int
  trCnt : Int
deriving DecidableEq, Repr

/-- What the shard server's handlers can see and change: the map
`PlayerManager::players` (an association list with the map's keys), the
connections on which `CNSocket::kill()` was called and the packets handed to
`CNSocket::sendPacket`, both in call order. -/
structure ShardState where
  players : List (CNSocket × Player)
  killed : List CNSocket
  sent : List (CNSocket × Nat)
deriving DecidableEq, Repr

/-- A packet handler (`PacketHandler`): any transformation of the shard state. -/
abbrev PacketHandler := CNSocket → CNPacketData → ShardState → ShardState

/-- The two diagnostics `handlePacket` writes to `std::cerr`. -/
inductive LogLine where
  | outOfSeq (type : Nat)
  | unimplemented (type : Nat)
deriving DecidableEq, Repr

/-- What one `handlePacket` call did besides changing the state: the handlers
it invoked, as (packet type, connection), and the lines it logged. -/
structure Dispatch where
  calls : List (Nat × CNSocket)
  logs : List LogLine
deriving DecidableEq, Repr

/-- Test `PlayerManager::players.find(sock) != PlayerManager::players.end()`. -/
def hasPlayer (players : List (CNSocket × Player)) (sock : CNSocket) : Bool :=
  (players.lookup sock).isSome

/-- Assignment `PlayerManager::players[sock]->lastHeartbeat = t` on an existing key. -/
def setHeartbeat : List (CNSocket × Player) → CNSocket → Int → List (CNSocket × Player)
  | [], _, _ => []
  | (k, p) :: rest, sock, t =>
    if sock == k then (k, { p with lastHeartbeat := t }) :: rest
    else (k, p) :: setHeartbeat rest sock t

/-- The closing lines of `handlePacket`: re-check that the player is still
connected and stamp `lastHeartbeat = getTime()`. -/
def stampHeartbeat (st : ShardState) (sock : CNSocket) (now : Int) : ShardState :=
  if hasPlayer st.players sock then
    { st with players := setHeartbeat st.players sock now }
  else st

/-- Embedding of `CNShardServer::handlePacket(sock, data)`.
`ShardPackets` is the handler table, `now` the value `getTime()` returns;
`printPacket` only prints and is left out. -/
def handlePacket (ShardPackets : List (Nat × PacketHandler)) (VERBOSITY : Int)
    (P_CL2FE_REQ_PC_ENTER P_CL2FE_REP_LIVE_CHECK : Nat) (now : Int)
    (sock : CNSocket) (data : CNPacketData) (st : ShardState) : ShardState × Dispatch :=
  -- if it's a valid packet
  match ShardPackets.lookup data.type with
  | some handler =>
    -- reject gameplay packets if not yet fully connected
    if !hasPlayer st.players sock && data.type != P_CL2FE_REQ_PC_ENTER
        && data.type != P_CL2FE_REP_LIVE_CHECK then
      (st, { calls := [],
             logs := if VERBOSITY > 0 then [LogLine.outOfSeq data.type] else [] })
    else
      -- run the appropriate packet handler
      (stampHeartbeat (handler sock data st) sock now,
        { calls := [(data.type, sock)], logs := [] })
  | none =>
    (stampHeartbeat st sock now,
      { calls := [],
        logs := if VERBOSITY > 0 then [LogLine.unimplemented data.type] else [] })

/-- One iteration of the loop of `keepAliveTimer`, for the map entry `pair`. -/
def keepAliveStep (TIMEOUT : Int) (P_FE2CL_REQ_LIVE_CHECK : Nat) (currTime : Int)
    (pair : CNSocket × Player) (st : ShardState) : ShardState :=
  if pair.2.lastHeartbeat ≠ 0 ∧ currTime - pair.2.lastHeartbeat > TIMEOUT then
    -- pair.first->kill()
    { st with killed := st.killed ++ [pair.1] }
  else if pair.2.lastHeartbeat ≠ 0 ∧ currTime - pair.2.lastHeartbeat > Int.tdiv TIMEOUT 2 then
    -- pair.first->sendPacket(&data, P_FE2CL_REQ_LIVE_CHECK, sizeof(...))
    { st with sent := st.sent ++ [(pair.1, P_FE2CL_REQ_LIVE_CHECK)] }
  else st

/-- The loop `for (auto& pair : PlayerManager::players)` of `keepAliveTimer`. -/
def keepAliveLoop (TIMEOUT : Int) (P_FE2CL_REQ_LIVE_CHECK : Nat) (currTime : Int) :
    List (CNSocket × Player) → ShardState → ShardState
  | [], st => st
  | pair :: rest, st =>
    keepAliveLoop TIMEOUT P_FE2CL_REQ_LIVE_CHECK currTime rest
      (keepAliveStep TIMEOUT P_FE2CL_REQ_LIVE_CHECK currTime pair st)

/-- Embedding of `CNShardServer::keepAliveTimer(serv, currTime)`. -/
def keepAliveTimer (TIMEOUT : Int) (P_FE2CL_REQ_LIVE_CHECK : Nat) (currTime : Int)
    (st : ShardState) : ShardState :=
  keepAliveLoop TIMEOUT P_FE2CL_REQ_LIVE_CHECK currTime st.players st

/-- Embedding of `struct TimerEvent`, over the state `σ` the handlers act on.
`handlr time` is the call `handlr(serv, time)`. -/
structure TimerEvent (σ : Type) where
  handlr : Int → σ → σ
  delta : Int
  scheduledEvent : Int

/-- Constructor `TimerEvent(h, d)`: `scheduledEvent` starts at 0. -/
def TimerEvent.new {σ : Type} (h : Int → σ → σ) (d : Int) : TimerEvent σ :=
  { handlr := h, delta := d, scheduledEvent := 0 }

/-- Result of one `onStep`: the timer list, the state the handlers acted on,
and the handler invocations as (position in `Timers`, time passed). -/
structure StepResult (σ : Type) where
  timers : List (TimerEvent σ)
  serv : σ
  fired : List (Nat × Int)

/-- The loop `for (TimerEvent& event : Timers)` of `onStep`; `idx` is the
position of the head of the list in `Timers`. -/
def timersLoop {σ : Type} (currTime : Int) : Nat → List (TimerEvent σ) → σ → StepResult σ
  | _, [], serv => { timers := [], serv := serv, fired := [] }
  | idx, event :: rest, serv =>
    if event.scheduledEvent = 0 then
      -- event hasn't been queued yet, go ahead and do that
      let r := timersLoop currTime (idx + 1) rest serv
      { r with timers := { event with scheduledEvent := currTime + event.delta } :: r.timers }
    else if event.scheduledEvent < currTime then
      -- timer needs to be called
      let r := timersLoop currTime (idx + 1) rest (event.handlr currTime serv)
      { r with
        timers := { event with scheduledEvent := currTime + event.delta } :: r.timers
        fired := (idx, currTime) :: r.fired }
    else
      let r := timersLoop currTime (idx + 1) rest serv
      { r with timers := event :: r.timers }

/-- Embedding of `CNShardServer::onStep()`; `currTime` is what `getTime()` returns. -/
def onStep {σ : Type} (active : Bool) (currTime : Int) (Timers : List (TimerEvent σ))
    (serv : σ) : StepResult σ :=
  -- do not evaluate timers if the server is shutting down
  if !active then { timers := Timers, serv := serv, fired := [] }
  else timersLoop currTime 0 Timers serv

end CNShardServer

namespace Monitor

/-! ## The telemetry channel (Monitor.cpp) -/

/-- A subscriber socket descriptor. -/
abbrev SOCKET := Nat

/-- Buffer size of the monitor: `#define BUFSIZE 2048`. -/
def BUFSIZE : Nat := 2048

/-- The network as `transmit` sees it.  `pending` holds, for each `send` call
still to come, what it returns as a function of the byte count requested
(−1 for an error); `wire` lists the chunks the kernel accepted, each with its
socket, in order; `closed` lists the sockets shut down and closed. -/
structure Net where
  pending : List (Int → Int)
  wire : List (SOCKET × List Char)
  closed : List SOCKET

/-- The list `sockets` together with an iterator into it: `before` are the
entries in front of the iterator, `it` the entries from the iterator on
(empty when the iterator is `sockets.end()`). -/
structure Sockets where
  before : List SOCKET
  it : List SOCKET
deriving DecidableEq, Repr

/-- The whole list `sockets`. -/
def Sockets.all (s : Sockets) : List SOCKET := s.before ++ s.it

/-- Statement `it = sockets.erase(it)`: the entry under the iterator is
removed and the iterator designates the one that followed it. -/
def Sockets.erase (s : Sockets) : Sockets := { s with it := s.it.tail }

/-- Statement `it++`. -/
def Sockets.next (s : Sockets) : Sockets :=
  match s.it with
  | [] => s
  | x :: rest => { before := s.before ++ [x], it := rest }

/-- Ways a run of the model stops without a result. -/
inductive Fault where
  /-- A `send` call was reached and `pending` describes no further call. -/
  | noSendResult
  /-- The code reads or writes `buff` at an index that is not below `BUFSIZE`. -/
  | bufferOverrun
  /-- The iterator `sockets.end()` was dereferenced. -/
  | badIterator
deriving DecidableEq, Repr

/-- All bytes socket `s` has received, in order. -/
def received (s : SOCKET) (wire : List (SOCKET × List Char)) : List Char :=
  (wire.filter (fun c => c.1 == s)).flatMap Prod.snd

/-- The bytes `buff[n .. len)` that `send(sock, buff+n, len-n, 0)` is asked to send. -/
def sendRegion (buff : List Char) (n len : Int) : List Char :=
  (buff.drop n.toNat).take (len - n).toNat

/-- The loop `while (n < len)` of `transmit`.  It returns `true` when the loop
ends with `n >= len`, `false` when the error branch is taken, together with
the outcomes of the `send` calls not yet made and the wire. -/
def transmitLoop (sock : SOCKET) (buff : List Char) (len : Int) :
    List (Int → Int) → Int → List (SOCKET × List Char) →
      Except Fault (Bool × List (Int → Int) × List (SOCKET × List Char))
  | [], n, wire =>
    if n < len then Except.error Fault.noSendResult else Except.ok (true, [], wire)
  | f :: rest, n, wire =>
    if n < len then
      -- n += send(sock, buff+n, len-n, 0);
      let r := f (len - n)
      let wire1 := if r > 0 then wire ++ [(sock, (sendRegion buff n len).take r.toNat)] else wire
      let n1 := n + r
      -- if (SOCKETERROR(n))
      if n1 = -1 then Except.ok (false, rest, wire1)
      else transmitLoop sock buff len rest n1 wire1
    else Except.ok (true, f :: rest, wire)

/-- Embedding of `transmit(it, buff, len)`: on the error branch the socket is
shut down and closed and erased from `sockets`. -/
def transmit (s : Sockets) (buff : List Char) (len : Int) (net : Net) :
    Except Fault (Bool × Sockets × Net) :=
  match s.it with
  | [] => Except.error Fault.badIterator
  | sock :: _ =>
    match transmitLoop sock buff len net.pending 0 net.wire with
    | Except.error e => Except.error e
    | Except.ok (true, pending, wire) =>
      Except.ok (true, s, { net with pending := pending, wire := wire })
    | Except.ok (false, pending, wire) =>
      Except.ok (false, s.erase,
        { pending := pending, wire := wire, closed := net.closed ++ [sock] })

/-- The loop `for (char c : email)` of `process_email`, started with write
index `i`: the writes `buff[index] = char` it makes, in order, and the final `i`. -/
def emailLoop : Nat → List Char → List (Nat × Char) × Nat
  | i, [] => ([], i)
  | i, c :: cs =>
    if i = BUFSIZE - 2 then ([], i)
    else if c = '\n' then
      -- buff[i++] = c; buff[i++] = '\t';
      let r := emailLoop (i + 2) cs
      ((i, c) :: (i + 1, '\t') :: r.1, r.2)
    else
      -- buff[i++] = c;
      let r := emailLoop (i + 1) cs
      ((i, c) :: r.1, r.2)

/-- The six writes of `strncpy(buff, "email ", 6)`. -/
def emailHeader : List (Nat × Char) :=
  [(0, 'e'), (1, 'm'), (2, 'a'), (3, 'i'), (4, 'l'), (5, ' ')]

/-- Result of `process_email`: every write to `buff`, in order, and the
returned length. -/
structure EmailRecord where
  writes : List (Nat × Char)
  len : Nat
deriving DecidableEq, Repr

/-- Embedding of `process_email(buff, email)`. -/
def process_email (email : List Char) : EmailRecord :=
  let r := emailLoop 6 email
  -- buff[i++] = '\n'; return i;
  { writes := emailHeader ++ r.1 ++ [(r.2, '\n')], len := r.2 + 1 }

/-- The bytes `buff[0 .. len)` after `process_email`: the values written, in
index order (the writes go to the indices 0, 1, 2, ... one after the other). -/
def EmailRecord.bytes (r : EmailRecord) : List Char := r.writes.map Prod.snd

/-- The lines of a text: its pieces between line feeds. -/
def lines (text : List Char) : List (List Char) := text.splitOn '\n'

/-- Every line feed of the text, one in last position apart, is directly
followed by a tab. -/
def tabAfterNewlines : List Char → Prop
  | [] => True
  | [_] => True
  | c :: d :: rest => (c = '\n' → d = '\t') ∧ tabAfterNewlines (d :: rest)

/-- What `%s` prints for `str.c_str()`: the characters in front of the first NUL. -/
def c_str (str : List Char) : List Char := str.takeWhile (fun c => c != Char.ofNat 0)

/-- What `%d` prints for an `int`. -/
def fmtInt (v : Int) : List Char := (Int.repr v).toList

/-- Embedding of `snprintf(buff, size, ...)` for `size > 0`, given the complete
formatted text: the bytes it stores, NUL included, and the value it returns. -/
def snprintf (size : Nat) (text : List Char) : List Char × Int :=
  (text.take (size - 1) ++ [Char.ofNat 0], (text.length : Int))

/-- The text of the format "player %d %d %s\n". -/
def playerText (getPlayerName : Player → List Char) (plr : Player) : List Char :=
  "player ".toList ++ fmtInt plr.x ++ " ".toList ++ fmtInt plr.y ++ " ".toList
    ++ c_str (getPlayerName plr) ++ "\n".toList

/-- The text of the format "chat %s\n". -/
def chatText (str : List Char) : List Char :=
  "chat ".toList ++ c_str str ++ "\n".toList

/-- Call `transmit(it, buff, n)` from `tick`, where `buff` holds `stored`:
a read at an index that nothing stored, or past `BUFSIZE`, is a fault. -/
def transmitBuff (s : Sockets) (stored : List Char) (n : Int) (net : Net) :
    Except Fault (Bool × Sockets × Net) :=
  if n > (stored.length : Int) ∨ stored.length > BUFSIZE then Except.error Fault.bufferOverrun
  else transmit s stored n net

/-- The loop over `PlayerManager::players` in `tick`; `false` is `goto outer`. -/
def playersLoop (getPlayerName : Player → List Char) :
    List (CNSocket × Player) → Sockets → Net → Except Fault (Bool × Sockets × Net)
  | [], s, net => Except.ok (true, s, net)
  | pair :: rest, s, net =>
    if pair.2.hidden then playersLoop getPlayerName rest s net
    else
      let p := snprintf BUFSIZE (playerText getPlayerName pair.2)
      match transmitBuff s p.1 p.2 net with
      | Except.error e => Except.error e
      | Except.ok (false, s1, net1) => Except.ok (false, s1, net1)
      | Except.ok (true, s1, net1) => playersLoop getPlayerName rest s1 net1

/-- The loop over `Chat::dump` in `tick`. -/
def chatLoop : List (List Char) → Sockets → Net → Except Fault (Bool × Sockets × Net)
  | [], s, net => Except.ok (true, s, net)
  | str :: rest, s, net =>
    let p := snprintf BUFSIZE (chatText str)
    match transmitBuff s p.1 p.2 net with
    | Except.error e => Except.error e
    | Except.ok (false, s1, net1) => Except.ok (false, s1, net1)
    | Except.ok (true, s1, net1) => chatLoop rest s1 net1

/-- The loop over `Email::dump` in `tick`. -/
def emailsLoop : List (List Char) → Sockets → Net → Except Fault (Bool × Sockets × Net)
  | [], s, net => Except.ok (true, s, net)
  | str :: rest, s, net =>
    let rec1 := process_email str
    match transmitBuff s rec1.bytes rec1.len net with
    | Except.error e => Except.error e
    | Except.ok (false, s1, net1) => Except.ok (false, s1, net1)
    | Except.ok (true, s1, net1) =>
      match transmit s1 "endemail\n".toList 9 net1 with
      | Except.error e => Except.error e
      | Except.ok (false, s2, net2) => Except.ok (false, s2, net2)
      | Except.ok (true, s2, net2) => emailsLoop rest s2 net2

/-- The body of the loop `while (it != sockets.end())` of `tick` up to, not
including, `it++`: `true` when the body reaches `it++`, `false` when it leaves
through `continue` or `goto outer`. -/
def tickBody (getPlayerName : Player → List Char) (players : List (CNSocket × Player))
    (chatDump emailDump : List (List Char)) (s : Sockets) (net : Net) :
    Except Fault (Bool × Sockets × Net) :=
  match transmit s "begin\n".toList 6 net with
  | Except.error e => Except.error e
  | Except.ok (false, s1, net1) => Except.ok (false, s1, net1)
  | Except.ok (true, s1, net1) =>
    match playersLoop getPlayerName players s1 net1 with
    | Except.error e => Except.error e
    | Except.ok (false, s2, net2) => Except.ok (false, s2, net2)
    | Except.ok (true, s2, net2) =>
      match chatLoop chatDump s2 net2 with
      | Except.error e => Except.error e
      | Except.ok (false, s3, net3) => Except.ok (false, s3, net3)
      | Except.ok (true, s3, net3) =>
        match emailsLoop emailDump s3 net3 with
        | Except.error e => Except.error e
        | Except.ok (false, s4, net4) => Except.ok (false, s4, net4)
        | Except.ok (true, s4, net4) =>
          transmit s4 "end\n".toList 4 net4

/-- The loop `while (it != sockets.end())` of `tick`.  Every pass either
erases the entry under the iterator or advances the iterator, so the number
of entries from the iterator on bounds the passes; `passes` counts them down. -/
def tickLoop (getPlayerName : Player → List Char) (players : List (CNSocket × Player))
    (chatDump emailDump : List (List Char)) : Nat → Sockets → Net → Except Fault (Sockets × Net)
  | 0, s, net =>
    if s.it = [] then Except.ok (s, net) else Except.error Fault.badIterator
  | passes + 1, s, net =>
    if s.it = [] then Except.ok (s, net)
    else
      match tickBody getPlayerName players chatDump emailDump s net with
      | Except.error e => Except.error e
      | Except.ok (false, s1, net1) =>
        tickLoop getPlayerName players chatDump emailDump passes s1 net1
      | Except.ok (true, s1, net1) =>
        tickLoop getPlayerName players chatDump emailDump passes s1.next net1

/-- State after `tick`. -/
structure TickResult where
  sockets : List SOCKET
  net : Net
  chatDump : List (List Char)
  emailDump : List (List Char)

/-- Embedding of `tick(serv, delta)` in Monitor.cpp. -/
def tick (getPlayerName : Player → List Char) (players : List (CNSocket × Player))
    (chatDump emailDump : List (List Char)) (sockets : List SOCKET) (net : Net) :
    Except Fault TickResult :=
  -- auto it = sockets.begin();
  match tickLoop getPlayerName players chatDump emailDump sockets.length
      { before := [], it := sockets } net with
  | Except.error e => Except.error e
  | Except.ok (s, net1) =>
    -- Chat::dump.clear(); Email::dump.clear();
    Except.ok { sockets := s.all, net := net1, chatDump := [], emailDump := [] }

/-! ### Notions used to state the properties of `tick` -/

/-- A `send` call that succeeds: asked for `req > 0` bytes, it accepts at
least one byte and at most `req`. -/
def goodSend (f : Int → Int) : Prop := ∀ req : Int, 0 < req → 0 < f req ∧ f req ≤ req

/-- Net `net1` is `net` after exactly `bytes` were put on the wire for socket
`sock`, in order and in one or more chunks, with at most one `send` call for
each byte and no socket closed. -/
def Delivered (sock : SOCKET) (bytes : List Char) (net net1 : Net) : Prop :=
  net1.closed = net.closed ∧
    ∃ (used : List (Int → Int)) (chunks : List (List Char)),
      net.pending = used ++ net1.pending ∧ used.length ≤ bytes.length ∧
      net1.wire = net.wire ++ chunks.map (fun c => (sock, c)) ∧ chunks.flatten = bytes

/-- The frame of the specification, section 4.7: a "begin" line, one player
line for each player that is not hidden, one chat line for each chat entry,
for each email its record and an "endemail" line, and an "end" line. -/
def specFrame (getPlayerName : Player → List Char) (players : List (CNSocket × Player))
    (chatDump emailDump : List (List Char)) : List Char :=
  "begin\n".toList
    ++ ((players.filter (fun pair => !pair.2.hidden)).map
          (fun pair => playerText getPlayerName pair.2)).flatten
    ++ (chatDump.map chatText).flatten
    ++ (emailDump.map (fun str => (process_email str).bytes ++ "endemail\n".toList)).flatten
    ++ "end\n".toList

/-! ### The telemetry scenario of the specification (section 8)

Two subscribers, three visible players and a hidden one, two chat records and
one email record. -/

/-- The players of the scenario. -/
def scenarioPlayers : List (CNSocket × Player) :=
  [(1, { lastHeartbeat := 0, hidden := false, x := 10, y := 20, nameData := "Ann".toList }),
   (2, { lastHeartbeat := 0, hidden := true, x := 11, y := 21, nameData := "Gm".toList }),
   (3, { lastHeartbeat := 0, hidden := false, x := -5, y := 7, nameData := "Bob".toList }),
   (4, { lastHeartbeat := 0, hidden := false, x := 0, y := 0, nameData := "Cy".toList })]

/-- The chat records of the scenario. -/
def scenarioChat : List (List Char) := ["hi".toList, "bye".toList]

/-- The email record of the scenario; its body has a line that reads "endemail". -/
def scenarioEmail : List (List Char) := ["Ann Bob\nendemail\nx".toList]

/-- A network on which every `send` call accepts all the bytes requested. -/
def scenarioNet : Net :=
  { pending := List.replicate 400 (fun req => req), wire := [], closed := [] }

end Monitor

/-! # Theorems -/

namespace CNProtocol

/-! ## Variable-length packet validation -/

/-- A count below `2 ^ 64` is its own conversion to `size_t`. -/
theorem toSizeT_natCast (k : Nat) (h : k < 2 ^ 64) : toSizeT (k : Int) = k := by
  unfold toSizeT SIZE_MOD
  have : ((k : Int) % ((2 ^ 64 : Nat) : Int)) = ((k % 2 ^ 64 : Nat) : Int) := by
    push_cast; rfl
  rw [this, Int.toNat_natCast, Nat.mod_eq_of_lt h]

/-- The ceiling `CN_PACKET_BUFFER_SIZE - 8` converts to `size_t` unchanged. -/
theorem toSizeT_ceiling (MAX : Nat) (h8 : 8 ≤ MAX) (hM : MAX < 2 ^ 31) :
    toSizeT ((MAX : Int) - 8) = MAX - 8 := by
  have : ((MAX : Int) - 8) = ((MAX - 8 : Nat) : Int) := by omega
  rw [this, toSizeT_natCast]
  omega

/-- For a positive count the guard fires exactly when the exact product is above the ceiling. -/
theorem mulOverflowGuard_iff (MAX k stride : Nat) (h8 : 8 ≤ MAX) (hM : MAX < 2 ^ 31)
    (hk0 : 0 < k) (hk : k < 2 ^ 64) :
    mulOverflowGuard MAX (k : Int) stride = true ↔ MAX - 8 < k * stride := by
  unfold mulOverflowGuard
  rw [toSizeT_ceiling MAX h8 hM, toSizeT_natCast k hk]
  simp only [Bool.and_eq_true, decide_eq_true_eq]
  rw [Nat.div_lt_iff_lt_mul hk0]
  constructor
  · rintro ⟨_, h⟩; rw [Nat.mul_comm]; exact h
  · intro h; exact ⟨by exact_mod_cast hk0, by rw [Nat.mul_comm]; exact h⟩

/-- For a count that is not positive the guard is skipped. -/
theorem mulOverflowGuard_nonpos (MAX stride : Nat) (n : Int) (hn : n ≤ 0) :
    mulOverflowGuard MAX n stride = false := by
  unfold mulOverflowGuard
  have : ¬ (n > 0) := by omega
  simp [this]

/-- A product that fits `size_t` is computed exactly. -/
theorem trailingSize_natCast (k stride : Nat) (hk : k < 2 ^ 64) (h : k * stride < 2 ^ 64) :
    trailingSize (k : Int) stride = k * stride := by
  unfold trailingSize
  rw [toSizeT_natCast k hk]
  exact Nat.mod_eq_of_lt h

/-- The outbound check on natural numbers, for a count that is not negative.
The one assumption is that the final addition does not wrap: when the trailer
region is within the ceiling, `base + k × stride` is below `2 ^ 64`. -/
theorem validOut_nat (MAX base stride k : Nat) (h8 : 8 ≤ MAX) (hM : MAX < 2 ^ 31)
    (hk : k < 2 ^ 31) (hadd : k * stride ≤ MAX - 8 → base + k * stride < 2 ^ 64) :
    validOutVarPacket MAX base (k : Int) stride = true ↔ base + k * stride ≤ MAX - 8 := by
  have hk64 : k < 2 ^ 64 := by omega
  unfold validOutVarPacket
  rcases Nat.eq_zero_or_pos k with hk0 | hk0
  · subst hk0
    have hfit : base + 0 * stride < 2 ^ 64 := hadd (by simp)
    rw [mulOverflowGuard_nonpos MAX stride _ (by simp)]
    simp only [Bool.false_eq_true, if_false]
    rw [trailingSize_natCast 0 stride (by norm_num) (by simp),
      toSizeT_ceiling MAX h8 hM]
    have : (base + 0 * stride) % SIZE_MOD = base + 0 * stride := Nat.mod_eq_of_lt hfit
    rw [this]
    by_cases hc : base + 0 * stride > MAX - 8
    · simp only [hc, if_true]
      constructor
      · intro h; cases h
      · intro h; omega
    · simp only [hc, if_false, true_iff]
      omega
  · by_cases hg : mulOverflowGuard MAX (k : Int) stride = true
    · have := (mulOverflowGuard_iff MAX k stride h8 hM hk0 hk64).1 hg
      simp only [hg, if_true]
      constructor
      · intro h; cases h
      · intro h; omega
    · have hle : ¬ (MAX - 8 < k * stride) :=
        fun h => hg ((mulOverflowGuard_iff MAX k stride h8 hM hk0 hk64).2 h)
      have hfit : base + k * stride < 2 ^ 64 := hadd (by omega)
      have hprod : k * stride < 2 ^ 64 := by omega
      simp only [hg, Bool.false_eq_true, if_false]
      rw [trailingSize_natCast k stride hk64 hprod, toSizeT_ceiling MAX h8 hM]
      have : (base + k * stride) % SIZE_MOD = base + k * stride := Nat.mod_eq_of_lt hfit
      rw [this]
      by_cases hc : base + k * stride > MAX - 8
      · simp only [hc, if_true]
        constructor
        · intro h; cases h
        · intro h; omega
      · simp only [hc, if_false, true_iff]
        omega

/-- The inbound check on natural numbers, for a count that is not negative,
under the same assumption on the final addition. -/
theorem validIn_nat (MAX base stride size k : Nat) (h8 : 8 ≤ MAX) (hM : MAX < 2 ^ 31)
    (hk : k < 2 ^ 31) (hadd : k * stride ≤ MAX - 8 → base + k * stride < 2 ^ 64) :
    validInVarPacket MAX base (k : Int) stride size = true ↔
      size = base + k * stride ∧ (k = 0 ∨ k * stride ≤ MAX - 8) := by
  have hk64 : k < 2 ^ 64 := by omega
  unfold validInVarPacket
  rcases Nat.eq_zero_or_pos k with hk0 | hk0
  · subst hk0
    have hfit : base + 0 * stride < 2 ^ 64 := hadd (by simp)
    have hsum : (base + 0 * stride) % SIZE_MOD = base + 0 * stride := Nat.mod_eq_of_lt hfit
    rw [mulOverflowGuard_nonpos MAX stride _ (by simp)]
    simp only [Bool.false_eq_true, if_false]
    rw [trailingSize_natCast 0 stride (by norm_num) (by simp), hsum]
    by_cases hc : size = base + 0 * stride
    · simp [hc]
    · simp [hc]
  · by_cases hg : mulOverflowGuard MAX (k : Int) stride = true
    · have := (mulOverflowGuard_iff MAX k stride h8 hM hk0 hk64).1 hg
      simp only [hg, if_true]
      constructor
      · intro h; cases h
      · rintro ⟨_, h | h⟩ <;> omega
    · have hle : ¬ (MAX - 8 < k * stride) :=
        fun h => hg ((mulOverflowGuard_iff MAX k stride h8 hM hk0 hk64).2 h)
      have hfit : base + k * stride < 2 ^ 64 := hadd (by omega)
      have hprod : k * stride < 2 ^ 64 := by omega
      have hsum : (base + k * stride) % SIZE_MOD = base + k * stride := Nat.mod_eq_of_lt hfit
      simp only [hg, Bool.false_eq_true, if_false]
      rw [trailingSize_natCast k stride hk64 hprod, hsum]
      by_cases hc : size = base + k * stride
      · simp only [hc, ne_eq, not_true_eq_false, if_false, true_iff, true_and]
        exact Or.inr (by omega)
      · simp [hc]

/-- The assumption on the final addition, moved from `Int` to `Nat`. -/
theorem addition_fits_nat (MAX base stride k : Nat) (h8 : 8 ≤ MAX)
    (hadd : (k : Int) * (stride : Int) ≤ (MAX : Int) - 8 →
      (base : Int) + (k : Int) * (stride : Int) < 2 ^ 64) :
    k * stride ≤ MAX - 8 → base + k * stride < 2 ^ 64 := by
  intro h
  have h1 : (k : Int) * (stride : Int) ≤ (MAX : Int) - 8 := by
    have : ((k * stride : Nat) : Int) ≤ ((MAX - 8 : Nat) : Int) := by exact_mod_cast h
    have hc : ((MAX - 8 : Nat) : Int) = (MAX : Int) - 8 := by omega
    rw [hc] at this
    exact_mod_cast this
  have h2 := hadd h1
  exact_mod_cast h2

/-- C1, as stated, fails at two inputs.  With a negative count the exact sum
`0 + (-1) × 1 = -1` is below the ceiling, yet `validOutVarPacket` answers
false; with `base = 2 ^ 64 - 1` the exact sum `2 ^ 64` is above the ceiling,
yet the `size_t` addition wraps to 0 and `validOutVarPacket` answers true. -/
theorem validOutVarPacket_not_exact :
    (validOutVarPacket 4096 0 (-1) 1 = false ∧ ((0 : Nat) : Int) + (-1) * ((1 : Nat) : Int) ≤ 4096 - 8) ∧
    (validOutVarPacket 4096 (2 ^ 64 - 1) 1 1 = true ∧
      ((2 ^ 64 - 1 : Nat) : Int) + 1 * ((1 : Nat) : Int) > 4096 - 8) := by
  decide

/-- C1 (amended): for every base, every stride and every trailer count
`0 ≤ n`, `validOutVarPacket` returns true exactly when the exact sum
`base + n × stride` is at most `MAX − 8`, and false otherwise, however large
the product `n × stride` is (the guard rejects every product above the
ceiling before it is formed), with one case left out: a trailer region
within the ceiling whose addition to `base` reaches `2 ^ 64` (that addition
is not guarded). -/
theorem validOutVarPacket_iff_fits (MAX base stride : Nat) (n : Int)
    (h8 : 8 ≤ MAX) (hM : MAX < 2 ^ 31) (hn0 : 0 ≤ n) (hn : n < 2 ^ 31)
    (hadd : n * (stride : Int) ≤ (MAX : Int) - 8 →
      (base : Int) + n * (stride : Int) < 2 ^ 64) :
    validOutVarPacket MAX base n stride = true ↔
      (base : Int) + n * (stride : Int) ≤ (MAX : Int) - 8 := by
  obtain ⟨k, rfl⟩ := Int.eq_ofNat_of_zero_le hn0
  have hk : k < 2 ^ 31 := by exact_mod_cast hn
  rw [validOut_nat MAX base stride k h8 hM hk (addition_fits_nat MAX base stride k h8 hadd)]
  have : ((MAX : Int) - 8) = ((MAX - 8 : Nat) : Int) := by omega
  rw [this]
  exact_mod_cast Iff.rfl

/-- Witness of `validOutVarPacket_iff_fits`, with a 4096-byte packet buffer:
two trailers of stride `2 ^ 63`, whose product overflows `size_t`, are
rejected, and three trailers of stride 100 behind a base of 20 bytes are
accepted. -/
theorem validOutVarPacket_iff_fits_witness :
    validOutVarPacket 4096 0 2 (2 ^ 63) = false ∧ validOutVarPacket 4096 20 3 100 = true :=
  ⟨Bool.eq_false_iff.2 (fun h =>
      absurd ((validOutVarPacket_iff_fits 4096 0 (2 ^ 63) 2 (by norm_num) (by norm_num)
        (by norm_num) (by norm_num) (by norm_num)).1 h) (by norm_num)),
    (validOutVarPacket_iff_fits 4096 20 100 3 (by norm_num) (by norm_num) (by norm_num)
      (by norm_num) (by norm_num)).2 (by norm_num)⟩

/-- C2, as stated, fails: a packet of exactly 4096 bytes with no trailers
passes `validInVarPacket` although `validOutVarPacket` rejects the same
base, count and stride (4096 is above the ceiling 4096 − 8). -/
theorem validInVarPacket_not_validOut :
    validInVarPacket 4096 4096 0 0 4096 = true ∧ validOutVarPacket 4096 4096 0 0 = false := by
  decide

/-- C2 (amended): for every base, stride and size and every trailer count
`0 ≤ n`, `validInVarPacket` is true iff `size = base + n × stride` (exact) and
the trailer region alone is within the ceiling (`n = 0` or
`n × stride ≤ MAX − 8`), however large the product is; the sum is not
compared with the ceiling.  Hence, when `size ≤ MAX − 8`, it is true iff
`size = base + n × stride` and `validOutVarPacket` is true.  One case is left
out: a trailer region within the ceiling whose addition to `base` reaches
`2 ^ 64`. -/
theorem validInVarPacket_iff (MAX base stride size : Nat) (n : Int)
    (h8 : 8 ≤ MAX) (hM : MAX < 2 ^ 31) (hn0 : 0 ≤ n) (hn : n < 2 ^ 31)
    (hadd : n * (stride : Int) ≤ (MAX : Int) - 8 →
      (base : Int) + n * (stride : Int) < 2 ^ 64) :
    (validInVarPacket MAX base n stride size = true ↔
      (size : Int) = (base : Int) + n * (stride : Int) ∧
        (n = 0 ∨ n * (stride : Int) ≤ (MAX : Int) - 8)) ∧
    ((size : Int) ≤ (MAX : Int) - 8 →
      (validInVarPacket MAX base n stride size = true ↔
        (size : Int) = (base : Int) + n * (stride : Int) ∧
          validOutVarPacket MAX base n stride = true)) := by
  obtain ⟨k, rfl⟩ := Int.eq_ofNat_of_zero_le hn0
  have hk : k < 2 ^ 31 := by exact_mod_cast hn
  have hadd2 := addition_fits_nat MAX base stride k h8 hadd
  have hin := validIn_nat MAX base stride size k h8 hM hk hadd2
  have hout := validOut_nat MAX base stride k h8 hM hk hadd2
  have hc : ((MAX : Int) - 8) = ((MAX - 8 : Nat) : Int) := by omega
  have e1 : ((size : Int) = (base : Int) + (k : Int) * (stride : Int)) ↔ size = base + k * stride := by
    exact_mod_cast Iff.rfl
  have e2 : ((k : Int) * (stride : Int) ≤ (MAX : Int) - 8) ↔ k * stride ≤ MAX - 8 := by
    rw [hc]; exact_mod_cast Iff.rfl
  have e3 : ((k : Int) = 0) ↔ k = 0 := by exact_mod_cast Iff.rfl
  have e4 : ((size : Int) ≤ (MAX : Int) - 8) ↔ size ≤ MAX - 8 := by
    rw [hc]; exact_mod_cast Iff.rfl
  rw [e1, e2, e3, e4, hin, hout]
  refine ⟨Iff.rfl, fun hs => ?_⟩
  constructor
  · rintro ⟨h, _⟩
    exact ⟨h, by omega⟩
  · rintro ⟨h, h2⟩
    exact ⟨h, Or.inr (by omega)⟩

/-- Witness of `validInVarPacket_iff`, with a 4096-byte packet buffer: a frame
claiming two trailers of stride `2 ^ 63`, whose product overflows `size_t`
and would wrap to 0, is rejected although its size equals the base; a
320-byte packet made of a 20-byte base and three 100-byte trailers is
accepted, and so is it by `validOutVarPacket`. -/
theorem validInVarPacket_iff_witness :
    validInVarPacket 4096 20 2 (2 ^ 63) 20 = false ∧
    validInVarPacket 4096 20 3 100 320 = true ∧ validOutVarPacket 4096 20 3 100 = true := by
  have hbig := validInVarPacket_iff 4096 20 (2 ^ 63) 20 2 (by norm_num) (by norm_num)
    (by norm_num) (by norm_num) (by norm_num)
  have h := validInVarPacket_iff 4096 20 100 320 3 (by norm_num) (by norm_num) (by norm_num)
    (by norm_num) (by norm_num)
  have hin : validInVarPacket 4096 20 3 100 320 = true :=
    h.1.2 ⟨by norm_num, Or.inr (by norm_num)⟩
  refine ⟨Bool.eq_false_iff.2 (fun hv => ?_), hin, ((h.2 (by norm_num)).1 hin).2⟩
  have := (hbig.1.1 hv).2
  norm_num at this

/-- For a positive trailer count the guard of `validInVarPacket` does what C3
says: a trailer region `n × stride` above `MAX − 8` is rejected.  This covers
the frame of the specification's scenario, 10 000 trailers of stride 1 000. -/
theorem validInVarPacket_rejects_positive (MAX base stride size k : Nat)
    (h8 : 8 ≤ MAX) (hM : MAX < 2 ^ 31) (hk0 : 0 < k) (hk : k < 2 ^ 31)
    (hbig : MAX - 8 < k * stride) :
    validInVarPacket MAX base (k : Int) stride size = false := by
  unfold validInVarPacket
  rw [(mulOverflowGuard_iff MAX k stride h8 hM hk0 (by omega)).2 hbig]
  rfl

/-- C3 fails for a negative trailer count.  With `n = -1` and stride 4 the
product the code forms, `(size_t)(-1) × 4`, is far above `MAX − 8` and
overflows `size_t`; the guard `npayloads > 0 && ...` is skipped, the product
wraps to `2 ^ 64 - 4`, and a frame of 8 bytes against a base of 12 is
accepted.  The specification's own scenario (10 000 × 1 000) is rejected. -/
theorem validInVarPacket_accepts_negative_count :
    toSizeT (-1) * 4 > 4096 - 8 ∧ toSizeT (-1) * 4 ≥ SIZE_MOD ∧
    mulOverflowGuard 4096 (-1) 4 = false ∧
    trailingSize (-1) 4 = 2 ^ 64 - 4 ∧
    validInVarPacket 4096 12 (-1) 4 8 = true ∧
    validInVarPacket 4096 12 10000 1000 8 = false := by
  decide

end CNProtocol

namespace CNShardServer

/-! ## Dispatch -/

/-- C4: `handlePacket` invokes the handler registered for the packet's type,
exactly once, if and only if the type is in `ShardPackets` and the connection
has a player entry or the type is `P_CL2FE_REQ_PC_ENTER` or
`P_CL2FE_REP_LIVE_CHECK`; the state then is what that handler left, with the
heartbeat stamped.  In every other case no handler runs, and neither `kill()`
nor `sendPacket` is called on any connection. -/
theorem handlePacket_invokes_iff (ShardPackets : List (Nat × PacketHandler)) (VERBOSITY : Int)
    (P_CL2FE_REQ_PC_ENTER P_CL2FE_REP_LIVE_CHECK : Nat) (now : Int)
    (sock : CNSocket) (data : CNPacketData) (st : ShardState) :
    ((handlePacket ShardPackets VERBOSITY P_CL2FE_REQ_PC_ENTER P_CL2FE_REP_LIVE_CHECK
          now sock data st).2.calls.length = 1 ↔
      ((ShardPackets.lookup data.type).isSome = true ∧
        (hasPlayer st.players sock = true ∨ data.type = P_CL2FE_REQ_PC_ENTER ∨
          data.type = P_CL2FE_REP_LIVE_CHECK))) ∧
    (((ShardPackets.lookup data.type).isSome = true ∧
        (hasPlayer st.players sock = true ∨ data.type = P_CL2FE_REQ_PC_ENTER ∨
          data.type = P_CL2FE_REP_LIVE_CHECK)) →
      ∃ handler, ShardPackets.lookup data.type = some handler ∧
        handlePacket ShardPackets VERBOSITY P_CL2FE_REQ_PC_ENTER P_CL2FE_REP_LIVE_CHECK
            now sock data st =
          (stampHeartbeat (handler sock data st) sock now,
            { calls := [(data.type, sock)], logs := [] })) ∧
    (¬ ((ShardPackets.lookup data.type).isSome = true ∧
        (hasPlayer st.players sock = true ∨ data.type = P_CL2FE_REQ_PC_ENTER ∨
          data.type = P_CL2FE_REP_LIVE_CHECK)) →
      (handlePacket ShardPackets VERBOSITY P_CL2FE_REQ_PC_ENTER P_CL2FE_REP_LIVE_CHECK
          now sock data st).2.calls = [] ∧
      (handlePacket ShardPackets VERBOSITY P_CL2FE_REQ_PC_ENTER P_CL2FE_REP_LIVE_CHECK
          now sock data st).1.killed = st.killed ∧
      (handlePacket ShardPackets VERBOSITY P_CL2FE_REQ_PC_ENTER P_CL2FE_REP_LIVE_CHECK
          now sock data st).1.sent = st.sent) := by
  unfold handlePacket
  cases hl : ShardPackets.lookup data.type with
  | none =>
    have hs : (stampHeartbeat st sock now).killed = st.killed ∧
        (stampHeartbeat st sock now).sent = st.sent := by
      unfold stampHeartbeat; split <;> simp
    simp [hs.1, hs.2]
  | some handler =>
    by_cases hp : hasPlayer st.players sock = true
    · simp [hp]
    · by_cases he : data.type = P_CL2FE_REQ_PC_ENTER
      · simp [hp, he]
      · by_cases hc : data.type = P_CL2FE_REP_LIVE_CHECK
        · simp [hp, hc]
        · simp [hp, he, hc]

/-- The specification's out-of-sequence scenario: a registered gameplay packet
(type 10) on a connection without a player entry is dropped with a log line;
its handler, which would kill the connection, does not run. -/
theorem handlePacket_out_of_sequence_drop :
    handlePacket [(10, fun sock _ st => { st with killed := st.killed ++ [sock] })] 1 1 2 500 7
        { type := 10, size := 0, trCnt := 0 } { players := [], killed := [], sent := [] } =
      ({ players := [], killed := [], sent := [] },
        { calls := [], logs := [LogLine.outOfSeq 10] }) := by
  decide

/-! ## Timers -/

/-- The loop keeps the number of timers. -/
theorem timersLoop_length {σ : Type} (now : Int) (ts : List (TimerEvent σ)) :
    ∀ (idx : Nat) (serv : σ), (timersLoop now idx ts serv).timers.length = ts.length := by
  induction ts with
  | nil => intro idx serv; simp [timersLoop]
  | cons ev rest ih =>
    intro idx serv
    unfold timersLoop
    by_cases h0 : ev.scheduledEvent = 0
    · simp [h0, ih]
    · by_cases hlt : ev.scheduledEvent < now
      · simp [h0, hlt, ih]
      · simp [h0, hlt, ih]

/-- Every invocation the loop records carries a position at or after the
position it started from, and the time `now`. -/
theorem timersLoop_fired_bound {σ : Type} (now : Int) (ts : List (TimerEvent σ)) :
    ∀ (idx : Nat) (serv : σ) (p : Nat × Int),
      p ∈ (timersLoop now idx ts serv).fired → idx ≤ p.1 ∧ p.2 = now := by
  induction ts with
  | nil => intro idx serv p hp; simp [timersLoop] at hp
  | cons ev rest ih =>
    intro idx serv p hp
    unfold timersLoop at hp
    by_cases h0 : ev.scheduledEvent = 0
    · simp only [h0, if_true] at hp
      have := ih (idx + 1) serv p hp
      exact ⟨by omega, this.2⟩
    · by_cases hlt : ev.scheduledEvent < now
      · simp only [h0, hlt, if_true, if_false, List.mem_cons] at hp
        rcases hp with rfl | hp
        · exact ⟨le_refl _, rfl⟩
        · have := ih (idx + 1) _ p hp
          exact ⟨by omega, this.2⟩
      · simp only [h0, hlt, if_false] at hp
        have := ih (idx + 1) serv p hp
        exact ⟨by omega, this.2⟩

/-- The recorded invocations of position `j`. -/
theorem timersLoop_fired_before {σ : Type} (now : Int) (ts : List (TimerEvent σ))
    (idx : Nat) (serv : σ) (j : Nat) (hj : j < idx) :
    (timersLoop now idx ts serv).fired.filter (fun p => p.1 == j) = [] := by
  rw [List.filter_eq_nil_iff]
  intro p hp
  have := (timersLoop_fired_bound now ts idx serv p hp).1
  simp only [beq_iff_eq]
  omega

/-- The three cases of `onStep` for the timer at position `i` of a loop that
started at position `idx`. -/
theorem timersLoop_event {σ : Type} (now : Int) (ts : List (TimerEvent σ)) :
    ∀ (idx : Nat) (serv : σ) (i : Nat) (ev : TimerEvent σ), ts[i]? = some ev →
      (ev.scheduledEvent = 0 →
        (timersLoop now idx ts serv).timers[i]? =
            some { ev with scheduledEvent := now + ev.delta } ∧
          (timersLoop now idx ts serv).fired.filter (fun p => p.1 == idx + i) = []) ∧
      (ev.scheduledEvent ≠ 0 → ev.scheduledEvent < now →
        (timersLoop now idx ts serv).timers[i]? =
            some { ev with scheduledEvent := now + ev.delta } ∧
          (timersLoop now idx ts serv).fired.filter (fun p => p.1 == idx + i) =
            [(idx + i, now)]) ∧
      (ev.scheduledEvent ≠ 0 → ¬ ev.scheduledEvent < now →
        (timersLoop now idx ts serv).timers[i]? = some ev ∧
          (timersLoop now idx ts serv).fired.filter (fun p => p.1 == idx + i) = []) := by
  induction ts with
  | nil => intro idx serv i ev h; simp at h
  | cons e rest ih =>
    intro idx serv i ev h
    cases i with
    | zero =>
      simp only [List.getElem?_cons_zero, Option.some.injEq] at h
      subst h
      have hb : ∀ s, (timersLoop now (idx + 1) rest s).fired.filter (fun p => p.1 == idx) = [] :=
        fun s => timersLoop_fired_before now rest (idx + 1) s idx (by omega)
      unfold timersLoop
      by_cases h0 : e.scheduledEvent = 0
      · simp [h0, hb]
      · by_cases hlt : e.scheduledEvent < now
        · simp [h0, hlt, hb, List.filter_cons]
        · simp [h0, hlt, hb]
    | succ i =>
      simp only [List.getElem?_cons_succ] at h
      have hidx : idx + (i + 1) = idx + 1 + i := by omega
      rw [hidx]
      unfold timersLoop
      by_cases h0 : e.scheduledEvent = 0
      · simp only [h0, if_true, List.getElem?_cons_succ]
        exact ih (idx + 1) serv i ev h
      · by_cases hlt : e.scheduledEvent < now
        · simp only [h0, hlt, if_true, if_false, List.getElem?_cons_succ]
          have hne : ((idx, now).1 == idx + 1 + i) = false := by
            simp only [beq_eq_false_iff_ne, ne_eq]; omega
          rw [List.filter_cons_of_neg (by simp only [hne]; exact Bool.false_ne_true)]
          exact ih (idx + 1) _ i ev h
        · simp only [h0, hlt, if_false, List.getElem?_cons_succ]
          exact ih (idx + 1) serv i ev h

/-- The state `onStep` leaves is the one obtained by calling, in list order,
the handler of every timer that is set and overdue. -/
theorem timersLoop_serv {σ : Type} (now : Int) (ts : List (TimerEvent σ)) :
    ∀ (idx : Nat) (serv : σ), (timersLoop now idx ts serv).serv =
      ts.foldl (fun s ev =>
        if ev.scheduledEvent ≠ 0 ∧ ev.scheduledEvent < now then ev.handlr now s else s) serv := by
  induction ts with
  | nil => intro idx serv; simp [timersLoop]
  | cons e rest ih =>
    intro idx serv
    unfold timersLoop
    by_cases h0 : e.scheduledEvent = 0
    · simp [h0, ih]
    · by_cases hlt : e.scheduledEvent < now
      · simp [h0, hlt, ih]
      · simp [h0, hlt, ih]

/-- C5: one `onStep` at time `now` on an active server, for the timer `ev` at
any position `i` of `Timers`.  If `scheduledEvent` is 0 it becomes
`now + delta` and the handler is not invoked; otherwise, if
`scheduledEvent < now`, the handler is invoked once, with `now`, and
`scheduledEvent` becomes `now + delta`; otherwise the timer is unchanged and
not invoked.  In every case the handler is invoked at most once, no matter
how far behind `scheduledEvent` is. -/
theorem onStep_timer {σ : Type} (now : Int) (Timers : List (TimerEvent σ)) (serv : σ)
    (i : Nat) (ev : TimerEvent σ) (hi : Timers[i]? = some ev) :
    (onStep true now Timers serv).timers.length = Timers.length ∧
    (ev.scheduledEvent = 0 →
      (onStep true now Timers serv).timers[i]? =
          some { ev with scheduledEvent := now + ev.delta } ∧
        (onStep true now Timers serv).fired.filter (fun p => p.1 == i) = []) ∧
    (ev.scheduledEvent ≠ 0 → ev.scheduledEvent < now →
      (onStep true now Timers serv).timers[i]? =
          some { ev with scheduledEvent := now + ev.delta } ∧
        (onStep true now Timers serv).fired.filter (fun p => p.1 == i) = [(i, now)]) ∧
    (ev.scheduledEvent ≠ 0 → ¬ ev.scheduledEvent < now →
      (onStep true now Timers serv).timers[i]? = some ev ∧
        (onStep true now Timers serv).fired.filter (fun p => p.1 == i) = []) ∧
    ((onStep true now Timers serv).fired.filter (fun p => p.1 == i)).length ≤ 1 ∧
    (onStep true now Timers serv).serv =
      Timers.foldl (fun s ev =>
        if ev.scheduledEvent ≠ 0 ∧ ev.scheduledEvent < now then ev.handlr now s else s) serv := by
  have hon : onStep true now Timers serv = timersLoop now 0 Timers serv := by
    simp [onStep]
  rw [hon]
  have h := timersLoop_event now Timers 0 serv i ev hi
  simp only [Nat.zero_add] at h
  refine ⟨timersLoop_length now Timers 0 serv, h.1, h.2.1, h.2.2, ?_, timersLoop_serv now Timers 0 serv⟩
  by_cases h0 : ev.scheduledEvent = 0
  · rw [(h.1 h0).2]; simp
  · by_cases hlt : ev.scheduledEvent < now
    · rw [(h.2.1 h0 hlt).2]; simp
    · rw [(h.2.2 h0 hlt).2]; simp

/-- Witness of `onStep_timer`: at time 100 a timer of period 4 that was due at
50, many periods ago, fires once and is rescheduled to 104, while the timer in
front of it, not yet queued, is queued for 104 without firing. -/
theorem onStep_timer_witness :
    (onStep true 100
        [TimerEvent.new (fun _ (s : Nat) => s + 1) 4,
          { handlr := fun _ (s : Nat) => s + 10, delta := 4, scheduledEvent := 50 }]
        0).fired.filter (fun p => p.1 == 1) = [(1, 100)] :=
  ((onStep_timer 100
      [TimerEvent.new (fun _ (s : Nat) => s + 1) 4,
        { handlr := fun _ (s : Nat) => s + 10, delta := 4, scheduledEvent := 50 }]
      0 1 { handlr := fun _ (s : Nat) => s + 10, delta := 4, scheduledEvent := 50 }
      rfl).2.2.1 (by decide) (by decide)).2

/-- An inactive server (shutting down) evaluates no timer. -/
theorem onStep_inactive {σ : Type} (now : Int) (Timers : List (TimerEvent σ)) (serv : σ) :
    (onStep false now Timers serv).timers = Timers ∧
      (onStep false now Timers serv).serv = serv ∧
      (onStep false now Timers serv).fired = [] := by
  simp [onStep]

/-! ## Keepalive -/

/-- The keepalive loop leaves `PlayerManager::players` as it is. -/
theorem keepAliveLoop_players (TIMEOUT : Int) (P : Nat) (now : Int)
    (ps : List (CNSocket × Player)) :
    ∀ st : ShardState, (keepAliveLoop TIMEOUT P now ps st).players = st.players := by
  induction ps with
  | nil => intro st; rfl
  | cons pair rest ih =>
    intro st
    unfold keepAliveLoop
    rw [ih]
    unfold keepAliveStep
    split
    · rfl
    · split <;> rfl

/-- The `kill()` calls of the loop: one for every entry with a heartbeat that
is older than `TIMEOUT`, in map order. -/
theorem keepAliveLoop_killed (TIMEOUT : Int) (P : Nat) (now : Int)
    (ps : List (CNSocket × Player)) :
    ∀ st : ShardState, (keepAliveLoop TIMEOUT P now ps st).killed =
      st.killed ++ (ps.filter (fun pair =>
        decide (pair.2.lastHeartbeat ≠ 0 ∧ now - pair.2.lastHeartbeat > TIMEOUT))).map Prod.fst := by
  induction ps with
  | nil => intro st; simp [keepAliveLoop]
  | cons pair rest ih =>
    intro st
    unfold keepAliveLoop
    rw [ih]
    unfold keepAliveStep
    by_cases h1 : pair.2.lastHeartbeat ≠ 0 ∧ now - pair.2.lastHeartbeat > TIMEOUT
    · rw [if_pos h1, List.filter_cons_of_pos (by simpa using h1)]
      simp
    · rw [if_neg h1, List.filter_cons_of_neg (by simpa using h1)]
      by_cases h2 : pair.2.lastHeartbeat ≠ 0 ∧ now - pair.2.lastHeartbeat > Int.tdiv TIMEOUT 2
      · rw [if_pos h2]
      · rw [if_neg h2]

/-- The `sendPacket` calls of the loop: one live check for every entry with a
heartbeat older than `TIMEOUT/2` and not older than `TIMEOUT`, in map order. -/
theorem keepAliveLoop_sent (TIMEOUT : Int) (P : Nat) (now : Int)
    (ps : List (CNSocket × Player)) :
    ∀ st : ShardState, (keepAliveLoop TIMEOUT P now ps st).sent =
      st.sent ++ (ps.filter (fun pair =>
        decide (¬ (pair.2.lastHeartbeat ≠ 0 ∧ now - pair.2.lastHeartbeat > TIMEOUT) ∧
          (pair.2.lastHeartbeat ≠ 0 ∧
            now - pair.2.lastHeartbeat > Int.tdiv TIMEOUT 2)))).map
          (fun pair => (pair.1, P)) := by
  induction ps with
  | nil => intro st; simp [keepAliveLoop]
  | cons pair rest ih =>
    intro st
    unfold keepAliveLoop
    rw [ih]
    unfold keepAliveStep
    by_cases h1 : pair.2.lastHeartbeat ≠ 0 ∧ now - pair.2.lastHeartbeat > TIMEOUT
    · rw [if_pos h1, List.filter_cons_of_neg (by
        simp only [decide_eq_true_eq]; exact fun h => h.1 h1)]
    · rw [if_neg h1]
      by_cases h2 : pair.2.lastHeartbeat ≠ 0 ∧ now - pair.2.lastHeartbeat > Int.tdiv TIMEOUT 2
      · rw [if_pos h2, List.filter_cons_of_pos (by
          simp only [decide_eq_true_eq]; exact ⟨h1, h2⟩)]
        simp
      · rw [if_neg h2, List.filter_cons_of_neg (by
          simp only [decide_eq_true_eq]; exact fun h => h2 h.2)]

/-- In a map (no key twice) the entries with key `sock` are the one entry. -/
theorem filter_key_eq (ps : List (CNSocket × Player)) (sock : CNSocket) (plr : Player)
    (hmem : (sock, plr) ∈ ps) (hkeys : (ps.map Prod.fst).Nodup) :
    ps.filter (fun pair => pair.1 == sock) = [(sock, plr)] := by
  induction ps with
  | nil => simp at hmem
  | cons pair rest ih =>
    simp only [List.map_cons, List.nodup_cons] at hkeys
    rcases List.mem_cons.1 hmem with h | h
    · subst h
      have : rest.filter (fun pair => pair.1 == sock) = [] := by
        rw [List.filter_eq_nil_iff]
        intro q hq hqs
        simp only [beq_iff_eq] at hqs
        exact hkeys.1 (List.mem_map.2 ⟨q, hq, hqs⟩)
      simp [List.filter_cons, this]
    · have hne : pair.1 ≠ sock := by
        intro he
        exact hkeys.1 (List.mem_map.2 ⟨(sock, plr), h, he.symm⟩)
      simp [List.filter_cons, hne, ih h hkeys.2]

/-- In a map, what a selection of the entries contributes for key `sock` is
decided by the one entry with that key. -/
theorem keyed_filter {α : Type} (ps : List (CNSocket × Player)) (sock : CNSocket) (plr : Player)
    (hmem : (sock, plr) ∈ ps) (hkeys : (ps.map Prod.fst).Nodup)
    (q : CNSocket × Player → Bool) (f : CNSocket × Player → α) (g : α → CNSocket)
    (hg : ∀ pair, g (f pair) = pair.1) :
    ((ps.filter q).map f).filter (fun a => g a == sock) =
      if q (sock, plr) = true then [f (sock, plr)] else [] := by
  have hcomp : ((fun a => g a == sock) ∘ f) = (fun pair : CNSocket × Player => pair.1 == sock) := by
    funext pair
    simp [hg]
  rw [List.filter_map, hcomp, List.filter_filter]
  have hswap : (fun a : CNSocket × Player => (a.1 == sock && q a)) =
      (fun a => (q a && (fun pair : CNSocket × Player => pair.1 == sock) a)) := by
    funext a
    exact Bool.and_comm _ _
  rw [hswap, ← List.filter_filter, filter_key_eq ps sock plr hmem hkeys]
  by_cases hq : q (sock, plr) = true
  · simp [hq]
  · simp [hq]

/-- C6, as stated, fails for a player whose `lastHeartbeat` is 0: with
`TIMEOUT = 60` at time 61 the silence `61 − 0` exceeds `TIMEOUT`, yet
`keepAliveTimer` neither kills the connection nor sends a live check. -/
theorem keepAliveTimer_skips_zero_heartbeat :
    (61 : Int) - 0 > 60 ∧
    keepAliveTimer 60 7
        61 { players := [(1, { lastHeartbeat := 0, hidden := false, x := 0, y := 0,
                               nameData := [] })],
             killed := [], sent := [] } =
      { players := [(1, { lastHeartbeat := 0, hidden := false, x := 0, y := 0,
                          nameData := [] })],
        killed := [], sent := [] } := by
  decide

/-- C6 (amended): for every entry `(sock, plr)` of the player map and every
time `now`, `keepAliveTimer` looks only at players whose `lastHeartbeat` is
not 0.  For such a player it calls `kill()` on the connection, once, if
`now − lastHeartbeat > TIMEOUT`; otherwise, if
`now − lastHeartbeat > TIMEOUT/2` (C integer division), it sends that
connection exactly one `P_FE2CL_REQ_LIVE_CHECK` packet and does not kill it;
otherwise it does neither.  A player whose `lastHeartbeat` is 0 is neither
killed nor sent a live check. -/
theorem keepAliveTimer_player (TIMEOUT : Int) (P_FE2CL_REQ_LIVE_CHECK : Nat) (now : Int)
    (st : ShardState) (sock : CNSocket) (plr : Player)
    (hmem : (sock, plr) ∈ st.players) (hkeys : (st.players.map Prod.fst).Nodup) :
    (plr.lastHeartbeat ≠ 0 → now - plr.lastHeartbeat > TIMEOUT →
      (keepAliveTimer TIMEOUT P_FE2CL_REQ_LIVE_CHECK now st).killed.filter (fun k => k == sock) =
          st.killed.filter (fun k => k == sock) ++ [sock] ∧
        (keepAliveTimer TIMEOUT P_FE2CL_REQ_LIVE_CHECK now st).sent.filter
            (fun m => m.1 == sock) = st.sent.filter (fun m => m.1 == sock)) ∧
    (plr.lastHeartbeat ≠ 0 → ¬ now - plr.lastHeartbeat > TIMEOUT →
        now - plr.lastHeartbeat > Int.tdiv TIMEOUT 2 →
      (keepAliveTimer TIMEOUT P_FE2CL_REQ_LIVE_CHECK now st).killed.filter (fun k => k == sock) =
          st.killed.filter (fun k => k == sock) ∧
        (keepAliveTimer TIMEOUT P_FE2CL_REQ_LIVE_CHECK now st).sent.filter
            (fun m => m.1 == sock) =
          st.sent.filter (fun m => m.1 == sock) ++ [(sock, P_FE2CL_REQ_LIVE_CHECK)]) ∧
    ((plr.lastHeartbeat = 0 ∨
        (¬ now - plr.lastHeartbeat > TIMEOUT ∧
          ¬ now - plr.lastHeartbeat > Int.tdiv TIMEOUT 2)) →
      (keepAliveTimer TIMEOUT P_FE2CL_REQ_LIVE_CHECK now st).killed.filter (fun k => k == sock) =
          st.killed.filter (fun k => k == sock) ∧
        (keepAliveTimer TIMEOUT P_FE2CL_REQ_LIVE_CHECK now st).sent.filter
            (fun m => m.1 == sock) = st.sent.filter (fun m => m.1 == sock)) ∧
    (keepAliveTimer TIMEOUT P_FE2CL_REQ_LIVE_CHECK now st).players = st.players := by
  unfold keepAliveTimer
  rw [keepAliveLoop_killed, keepAliveLoop_sent, keepAliveLoop_players]
  simp only [List.filter_append]
  rw [keyed_filter st.players sock plr hmem hkeys _ Prod.fst (fun k => k) (fun _ => rfl),
    keyed_filter st.players sock plr hmem hkeys _ (fun pair => (pair.1, P_FE2CL_REQ_LIVE_CHECK))
      Prod.fst (fun _ => rfl)]
  simp only [decide_eq_true_eq]
  refine ⟨?_, ?_, ?_, trivial⟩
  · intro h0 h1
    rw [if_pos ⟨h0, h1⟩, if_neg (fun h => h.1 ⟨h0, h1⟩)]
    simp
  · intro h0 h1 h2
    rw [if_neg (fun h => h1 h.2), if_pos ⟨fun h => h1 h.2, h0, h2⟩]
    simp
  · rintro (h0 | ⟨h1, h2⟩)
    · rw [if_neg (fun h => h.1 h0), if_neg (fun h => h.2.1 h0)]
      simp
    · rw [if_neg (fun h => h1 h.2), if_neg (fun h => h2 h.2.2)]
      simp

/-- Witness of `keepAliveTimer_player`, the specification's keepalive scenario
with `TIMEOUT = 60`: at time 1061 the connection last heard 31 s ago (socket 1)
gets exactly one live check and is not killed, and the one last heard 61 s ago
(socket 2) is killed. -/
theorem keepAliveTimer_player_witness :
    (keepAliveTimer 60 7 1061
        { players := [(1, { lastHeartbeat := 1030, hidden := false, x := 0, y := 0,
                            nameData := [] }),
                      (2, { lastHeartbeat := 1000, hidden := false, x := 0, y := 0,
                            nameData := [] })],
          killed := [], sent := [] }).sent.filter (fun m => m.1 == 1) = [(1, 7)] ∧
    (keepAliveTimer 60 7 1061
        { players := [(1, { lastHeartbeat := 1030, hidden := false, x := 0, y := 0,
                            nameData := [] }),
                      (2, { lastHeartbeat := 1000, hidden := false, x := 0, y := 0,
                            nameData := [] })],
          killed := [], sent := [] }).killed.filter (fun k => k == 2) = [2] :=
  ⟨((keepAliveTimer_player 60 7 1061 _ 1
        { lastHeartbeat := 1030, hidden := false, x := 0, y := 0, nameData := [] }
        (by decide) (by decide)).2.1 (by decide) (by decide) (by decide)).2,
   ((keepAliveTimer_player 60 7 1061 _ 2
        { lastHeartbeat := 1000, hidden := false, x := 0, y := 0, nameData := [] }
        (by decide) (by decide)).1 (by decide) (by decide)).1⟩

end CNShardServer

namespace Monitor

/-! ## The email record -/

/-- The write index advances by one for each write of the loop. -/
theorem emailLoop_indices (email : List Char) :
    ∀ i : Nat, (emailLoop i email).1.map Prod.fst = List.range' i (emailLoop i email).1.length ∧
      (emailLoop i email).2 = i + (emailLoop i email).1.length := by
  induction email with
  | nil => intro i; simp [emailLoop]
  | cons c cs ih =>
    intro i
    unfold emailLoop
    by_cases hb : i = BUFSIZE - 2
    · simp [hb]
    · by_cases hc : c = '\n'
      · have := ih (i + 2)
        simp only [hb, hc, if_true, if_false, List.map_cons, List.length_cons, List.range'_succ]
        refine ⟨?_, by omega⟩
        rw [this.1]
      · have := ih (i + 1)
        simp only [hb, hc, if_false, List.map_cons, List.length_cons, List.range'_succ]
        refine ⟨?_, by omega⟩
        rw [this.1]

/-- Three consecutive runs of indices make one run. -/
theorem range_header_body (k : Nat) :
    List.range' 0 6 ++ List.range' 6 k ++ [6 + k] = List.range' 0 (6 + k + 1) := by
  have h1 : List.range' 0 6 ++ List.range' 6 k = List.range' 0 (k + 6) := by
    have := List.range'_append_1 0 6 k
    simpa using this
  have h2 : List.range' 0 (k + 6 + 1) = List.range' 0 (k + 6) ++ [0 + 1 * (k + 6)] :=
    List.range'_concat 0 (k + 6)
  have e : 6 + k + 1 = k + 6 + 1 := by omega
  rw [h1, e, h2]
  congr 2
  omega

/-- The writes of `process_email` go to the indices 0, 1, ..., `len − 1`, in
this order, so that `bytes` is the content of `buff[0 .. len)`. -/
theorem process_email_indices (email : List Char) :
    (process_email email).writes.map Prod.fst = List.range (process_email email).len ∧
      (process_email email).bytes.length = (process_email email).len := by
  have h := emailLoop_indices email 6
  constructor
  · simp only [process_email, List.map_append, List.map_cons, List.map_nil, h.1]
    rw [h.2, List.range_eq_range']
    have e1 : List.map Prod.fst emailHeader = List.range' 0 6 := by decide
    rw [e1]
    exact range_header_body _
  · simp only [process_email, EmailRecord.bytes, List.map_append, List.length_append,
      List.length_map, List.length_cons, List.length_nil, h.2]
    have : emailHeader.length = 6 := rfl
    omega

/-- The record as a text: the header, the body written by the loop, the
terminating line feed. -/
theorem process_email_bytes (email : List Char) :
    (process_email email).bytes =
      'e' :: 'm' :: 'a' :: 'i' :: 'l' :: ' ' ::
        ((emailLoop 6 email).1.map Prod.snd ++ ['\n']) := by
  simp [process_email, EmailRecord.bytes, emailHeader]

/-- A character that is no line feed may be put in front. -/
theorem tabAfterNewlines_cons (c : Char) (text : List Char) (hc : c ≠ '\n')
    (h : tabAfterNewlines text) : tabAfterNewlines (c :: text) := by
  cases text with
  | nil => trivial
  | cons d rest => exact ⟨fun hn => absurd hn hc, h⟩

/-- What the loop writes, followed by any text that has the property, has it. -/
theorem emailLoop_tabAfterNewlines (email : List Char) :
    ∀ (i : Nat) (text : List Char), tabAfterNewlines text →
      tabAfterNewlines ((emailLoop i email).1.map Prod.snd ++ text) := by
  induction email with
  | nil => intro i text h; simpa [emailLoop] using h
  | cons c cs ih =>
    intro i text h
    unfold emailLoop
    by_cases hb : i = BUFSIZE - 2
    · simpa [hb] using h
    · by_cases hc : c = '\n'
      · simp only [hb, hc, if_true, if_false, List.map_cons, List.cons_append]
        exact ⟨fun _ => rfl, tabAfterNewlines_cons '\t' _ (by decide) (ih (i + 2) text h)⟩
      · simp only [hb, hc, if_false, List.map_cons, List.cons_append]
        exact tabAfterNewlines_cons c _ hc (ih (i + 1) text h)

/-- The property in terms of positions. -/
theorem tabAfterNewlines_index (text : List Char) (h : tabAfterNewlines text) :
    ∀ i : Nat, text[i]? = some '\n' → i + 1 < text.length → text[i + 1]? = some '\t' := by
  induction text with
  | nil => intro i hi; simp at hi
  | cons c rest ih =>
    intro i hi hlen
    cases rest with
    | nil => simp at hlen
    | cons d rest2 =>
      cases i with
      | zero =>
        simp only [List.getElem?_cons_zero, Option.some.injEq] at hi
        simp only [List.getElem?_cons_succ, List.getElem?_cons_zero, Option.some.injEq]
        exact h.1 hi
      | succ j =>
        simp only [List.getElem?_cons_succ] at hi
        rw [List.getElem?_cons_succ]
        exact ih h.2 j hi (by simpa using hlen)

/-- In a text with the property every line but the first is empty or starts
with a tab. -/
theorem lines_tail_of_tabAfterNewlines (text : List Char) (h : tabAfterNewlines text) :
    ∀ ln ∈ (lines text).tail, ln = [] ∨ ln.head? = some '\t' := by
  induction text with
  | nil => intro ln hln; simp [lines, List.splitOn] at hln
  | cons c rest ih =>
    have hrest : tabAfterNewlines rest := by
      cases rest with
      | nil => trivial
      | cons d rest2 => exact h.2
    have ih2 := ih hrest
    unfold lines List.splitOn at ih2 ⊢
    rw [List.splitOnP_cons]
    by_cases hc : c = '\n'
    · subst hc
      simp only [beq_self_eq_true, if_true, List.tail_cons]
      cases rest with
      | nil => intro ln hln; simp at hln; exact Or.inl hln
      | cons d rest2 =>
        have hd : d = '\t' := h.1 rfl
        subst hd
        rw [List.splitOnP_cons]
        have hne : (('\t' : Char) == '\n') = false := by decide
        simp only [hne, Bool.false_eq_true, if_false]
        rw [List.splitOnP_cons] at ih2
        simp only [hne, Bool.false_eq_true, if_false] at ih2
        cases hs : List.splitOnP (fun x => x == '\n') rest2 with
        | nil => intro ln hln; simp [List.modifyHead] at hln
        | cons first others =>
          rw [hs] at ih2
          simp only [List.modifyHead, List.tail_cons] at ih2 ⊢
          intro ln hln
          rcases List.mem_cons.1 hln with rfl | hmem
          · exact Or.inr rfl
          · exact ih2 ln hmem
    · have hne : (c == '\n') = false := by simpa using hc
      simp only [hne, Bool.false_eq_true, if_false]
      cases hs : List.splitOnP (fun x => x == '\n') rest with
      | nil => intro ln hln; simp [List.modifyHead] at hln
      | cons first others =>
        rw [hs] at ih2
        simpa [List.modifyHead] using ih2

/-- The record has the property: its header has no line feed, the loop puts a
tab behind each line feed it copies, and the terminator comes last. -/
theorem process_email_tabAfterNewlines (email : List Char) :
    tabAfterNewlines (process_email email).bytes := by
  rw [process_email_bytes]
  have hbody := emailLoop_tabAfterNewlines email 6 ['\n'] trivial
  exact tabAfterNewlines_cons _ _ (by decide) (tabAfterNewlines_cons _ _ (by decide)
    (tabAfterNewlines_cons _ _ (by decide) (tabAfterNewlines_cons _ _ (by decide)
      (tabAfterNewlines_cons _ _ (by decide) (tabAfterNewlines_cons _ _ (by decide) hbody)))))

/-- The first line of the record starts with the characters e, m. -/
theorem process_email_first_line (email : List Char) :
    ∃ first others, lines (process_email email).bytes = ('e' :: 'm' :: first) :: others := by
  rw [process_email_bytes]
  unfold lines List.splitOn
  rw [List.splitOnP_cons, List.splitOnP_cons]
  have h1 : (('e' : Char) == '\n') = false := by decide
  have h2 : (('m' : Char) == '\n') = false := by decide
  simp only [h1, h2, Bool.false_eq_true, if_false]
  cases hs : List.splitOnP (fun x => x == '\n')
      ('a' :: 'i' :: 'l' :: ' ' :: ((emailLoop 6 email).1.map Prod.snd ++ ['\n'])) with
  | nil => exact absurd hs (List.splitOnP_ne_nil _ _)
  | cons first others => exact ⟨first, others, rfl⟩

/-- C7: for every email string the record `process_email` produces starts
with "email ", ends with a line feed, and every line feed in it other than
that final one is immediately followed by a tab; hence no line of the record
is exactly "endemail", whatever the email contains. -/
theorem process_email_no_spoof (email : List Char) :
    "email ".toList <+: (process_email email).bytes ∧
    (process_email email).bytes.getLast? = some '\n' ∧
    (∀ i : Nat, (process_email email).bytes[i]? = some '\n' →
      i + 1 < (process_email email).bytes.length →
      (process_email email).bytes[i + 1]? = some '\t') ∧
    (∀ ln ∈ lines (process_email email).bytes, ln ≠ "endemail".toList) := by
  refine ⟨?_, ?_, tabAfterNewlines_index _ (process_email_tabAfterNewlines email), ?_⟩
  · rw [process_email_bytes]
    exact ⟨(emailLoop 6 email).1.map Prod.snd ++ ['\n'], rfl⟩
  · rw [process_email_bytes]
    have e : 'e' :: 'm' :: 'a' :: 'i' :: 'l' :: ' ' ::
          ((emailLoop 6 email).1.map Prod.snd ++ ['\n']) =
        ('e' :: 'm' :: 'a' :: 'i' :: 'l' :: ' ' :: (emailLoop 6 email).1.map Prod.snd)
          ++ ['\n'] := rfl
    rw [e, List.getLast?_concat]
  · intro ln hln
    obtain ⟨first, others, hl⟩ := process_email_first_line email
    have htail := lines_tail_of_tabAfterNewlines _ (process_email_tabAfterNewlines email)
    rw [hl] at hln htail
    have hend : "endemail".toList = ['e', 'n', 'd', 'e', 'm', 'a', 'i', 'l'] := rfl
    rw [hend]
    rcases List.mem_cons.1 hln with rfl | hmem
    · intro h
      simp at h
    · rcases htail ln hmem with rfl | ht
      · simp
      · intro h
        rw [h] at ht
        simp at ht


/-- A run of `k` copies of a character that is no line feed, written from
index `i` with `i + k ≤ BUFSIZE − 2`, is copied as it is; the loop goes on at
index `i + k`. -/
theorem emailLoop_replicate (c : Char) (hc : c ≠ '\n') (rest : List Char) :
    ∀ (k i : Nat), i + k ≤ BUFSIZE - 2 →
      emailLoop i (List.replicate k c ++ rest) =
        ((List.range' i k).map (fun j => (j, c)) ++ (emailLoop (i + k) rest).1,
          (emailLoop (i + k) rest).2) := by
  intro k
  induction k with
  | zero => intro i _; simp
  | succ k ih =>
    intro i hle
    have hne : i ≠ BUFSIZE - 2 := by omega
    have hi : i + 1 + k = i + (k + 1) := by omega
    rw [List.replicate_succ, List.cons_append, emailLoop]
    simp only [hne, hc, if_false]
    rw [ih (i + 1) (by omega), hi]
    simp [List.range'_succ]

/-- At index `BUFSIZE − 2` the loop stops, whatever is left of the email. -/
theorem emailLoop_stops (email : List Char) :
    emailLoop (BUFSIZE - 2) email = ([], BUFSIZE - 2) := by
  cases email with
  | nil => rfl
  | cons c cs => simp [emailLoop]

/-- C8 fails: a line feed written at index 2045 moves the write index from
2045 to 2047, past the only value (`BUFSIZE − 2 = 2046`) at which the loop
stops.  For an email of 2039 letters, a line feed and one more letter,
`process_email` writes `buff[2048]` and returns 2049, both beyond the
2048-byte buffer. -/
theorem process_email_overruns :
    (process_email (List.replicate 2039 'a' ++ ['\n', 'b'])).len = 2049 ∧
    (process_email (List.replicate 2039 'a' ++ ['\n', 'b'])).len > BUFSIZE ∧
    (2048, '\n') ∈ (process_email (List.replicate 2039 'a' ++ ['\n', 'b'])).writes := by
  have hrun : emailLoop 6 (List.replicate 2039 'a' ++ ['\n', 'b']) =
      ((List.range' 6 2039).map (fun j => (j, 'a')) ++ (emailLoop 2045 ['\n', 'b']).1,
        (emailLoop 2045 ['\n', 'b']).2) :=
    emailLoop_replicate 'a' (by decide) ['\n', 'b'] 2039 6 (by decide)
  have htail : emailLoop 2045 ['\n', 'b'] =
      ([(2045, '\n'), (2046, '\t'), (2047, 'b')], 2048) := by decide
  rw [htail] at hrun
  have hlen : (process_email (List.replicate 2039 'a' ++ ['\n', 'b'])).len = 2049 := by
    simp only [process_email, hrun]
  refine ⟨hlen, by rw [hlen]; decide, ?_⟩
  simp only [process_email, hrun]
  simp

/-- Without a line feed at index 2045 the stop test works: an email of 5000
letters is cut and the record has 2047 bytes. -/
theorem process_email_truncates : (process_email (List.replicate 5000 'a')).len = 2047 := by
  have hsplit : List.replicate 5000 'a' = List.replicate 2040 'a' ++ List.replicate 2960 'a' := by
    rw [← List.replicate_add]
  have hrun := emailLoop_replicate 'a' (by decide) (List.replicate 2960 'a') 2040 6 (by decide)
  have hstop : (6 : Nat) + 2040 = BUFSIZE - 2 := by decide
  rw [hstop, emailLoop_stops] at hrun
  simp only [process_email, hsplit, hrun]
  decide

/-- The loop writes at most two bytes for each character of the email. -/
theorem emailLoop_length_le (email : List Char) :
    ∀ i : Nat, (emailLoop i email).1.length ≤ 2 * email.length := by
  induction email with
  | nil => intro i; simp [emailLoop]
  | cons c cs ih =>
    intro i
    unfold emailLoop
    by_cases hb : i = BUFSIZE - 2
    · simp [hb]
    · by_cases hc : c = '\n'
      · have := ih (i + 2)
        simp only [hb, hc, if_true, if_false, List.length_cons]
        omega
      · have := ih (i + 1)
        simp only [hb, hc, if_false, List.length_cons]
        omega

/-- The sizing the comment above `BUFSIZE` relies on: the record of an email
is at most twice as long as the email, plus 7, so emails of up to 1020
characters stay inside the buffer. -/
theorem process_email_len_le (email : List Char) :
    (process_email email).len ≤ 2 * email.length + 7 := by
  have h1 := (emailLoop_indices email 6).2
  have h2 := emailLoop_length_le email 6
  simp only [process_email, h1]
  omega


/-! ## `transmit` -/

/-- C9 fails for an error that follows a partial send.  Asked for the 6 bytes
of "begin\n", the `send` calls return 3, then −1, then 4: after the second
call `n` is `3 + (−1) = 2`, not −1, so the test `SOCKETERROR(n)` does not see
the error; the loop sends again from `buff + 2` and `transmit` returns true.
The subscriber is neither closed nor erased, and it has received "beggin\n". -/
theorem transmit_misses_error_after_partial_send :
    (transmit { before := [], it := [7, 8] } "begin\n".toList 6
        { pending := [fun _ => 3, fun _ => -1, fun _ => 4], wire := [], closed := [] }).map
      (fun r => (r.1, r.2.1, r.2.2.closed, received 7 r.2.2.wire, r.2.2.pending.length)) =
    Except.ok (true, { before := [], it := [7, 8] }, [], "beggin\n".toList, 0) := by
  rfl

/-- An error of the first `send` call is seen: `n` is −1, the socket is closed
and erased from the list, and `transmit` returns false. -/
theorem transmit_first_send_error (s : Sockets) (sock : SOCKET) (rest : List SOCKET)
    (buff : List Char) (len : Int) (net : Net) (f : Int → Int) (fs : List (Int → Int))
    (hit : s.it = sock :: rest) (hlen : 0 < len) (hp : net.pending = f :: fs)
    (hf : f len = -1) :
    transmit s buff len net =
      Except.ok (false, { before := s.before, it := rest },
        { pending := fs, wire := net.wire, closed := net.closed ++ [sock] }) := by
  unfold transmit
  rw [hit, hp]
  simp only [transmitLoop, hlen, if_true, Int.sub_zero, hf, Int.zero_add]
  simp [Sockets.erase, hit]


/-! ## `tick` -/

/-- The bytes from `n` on of the first `len`, split at `n + r`. -/
theorem sendRegion_split (buff : List Char) (n len r : Int) (hn : 0 ≤ n) (hr : 0 < r)
    (hle : n + r ≤ len) :
    (sendRegion buff n len).take r.toNat ++ (buff.take len.toNat).drop (n + r).toNat =
      (buff.take len.toNat).drop n.toNat := by
  unfold sendRegion
  have e1 : (len - n).toNat = len.toNat - n.toNat := by omega
  have e2 : (n + r).toNat = n.toNat + r.toNat := by omega
  rw [e1, ← List.drop_take, e2, ← List.drop_drop]
  exact List.take_append_drop _ _

/-- When every `send` call succeeds and enough of them are described, the
loop of `transmit` ends with `true` after putting `buff[n .. len)` on the wire. -/
theorem transmitLoop_ok (sock : SOCKET) (buff : List Char) (len : Int) :
    ∀ (pending : List (Int → Int)) (n : Int) (wire : List (SOCKET × List Char)),
      (∀ f ∈ pending, goodSend f) → 0 ≤ n → n ≤ len → (len - n).toNat ≤ pending.length →
      ∃ (used rest : List (Int → Int)) (chunks : List (List Char)),
        pending = used ++ rest ∧ used.length ≤ (len - n).toNat ∧
        transmitLoop sock buff len pending n wire =
          Except.ok (true, rest, wire ++ chunks.map (fun c => (sock, c))) ∧
        chunks.flatten = (buff.take len.toNat).drop n.toNat := by
  intro pending
  induction pending with
  | nil =>
    intro n wire _ h0 hle hsup
    have hn : n = len := by
      simp only [List.length_nil, Nat.le_zero_eq] at hsup
      omega
    subst hn
    refine ⟨[], [], [], rfl, by simp, ?_, ?_⟩
    · simp [transmitLoop]
    · simp only [List.flatten_nil]
      exact (List.drop_eq_nil_of_le (by simp)).symm
  | cons f fs ih =>
    intro n wire hg h0 hle hsup
    by_cases hlt : n < len
    · have hgf := hg f (List.mem_cons_self _ _) (len - n) (by omega)
      have hsup2 : (len - (n + f (len - n))).toNat ≤ fs.length := by
        simp only [List.length_cons] at hsup
        omega
      obtain ⟨used, rest, chunks, hused, hul, hrun, hflat⟩ :=
        ih (n + f (len - n))
          (wire ++ [(sock, (sendRegion buff n len).take (f (len - n)).toNat)])
          (fun g hgm => hg g (List.mem_cons_of_mem _ hgm)) (by omega) (by omega) hsup2
      refine ⟨f :: used, rest, (sendRegion buff n len).take (f (len - n)).toNat :: chunks,
        by rw [hused]; rfl, by simp only [List.length_cons]; omega, ?_, ?_⟩
      · have hne : ¬ (n + f (len - n) = -1) := by omega
        have hpos : f (len - n) > 0 := hgf.1
        simp only [transmitLoop, hlt, if_true, hpos, hne, if_false]
        rw [hrun]
        simp
      · rw [List.flatten_cons, hflat]
        exact sendRegion_split buff n len (f (len - n)) h0 hgf.1 (by omega)
    · have hn : n = len := by omega
      subst hn
      refine ⟨[], f :: fs, [], rfl, by simp, ?_, ?_⟩
      · simp [transmitLoop]
      · simp only [List.flatten_nil]
        exact (List.drop_eq_nil_of_le (by simp)).symm

/-- Nothing delivered. -/
theorem Delivered.refl (sock : SOCKET) (net : Net) : Delivered sock [] net net :=
  ⟨rfl, [], [], rfl, by simp, by simp, rfl⟩

/-- Deliveries to one socket compose. -/
theorem Delivered.trans {sock : SOCKET} {a b : List Char} {net net1 net2 : Net}
    (h1 : Delivered sock a net net1) (h2 : Delivered sock b net1 net2) :
    Delivered sock (a ++ b) net net2 := by
  obtain ⟨hc1, used1, chunks1, hp1, hl1, hw1, hf1⟩ := h1
  obtain ⟨hc2, used2, chunks2, hp2, hl2, hw2, hf2⟩ := h2
  refine ⟨hc2.trans hc1, used1 ++ used2, chunks1 ++ chunks2, ?_, ?_, ?_, ?_⟩
  · rw [hp1, hp2, List.append_assoc]
  · simp only [List.length_append]; omega
  · rw [hw2, hw1, List.map_append, List.append_assoc]
  · rw [List.flatten_append, hf1, hf2]

/-- After a delivery the `send` calls still to come are among those before. -/
theorem Delivered.good {sock : SOCKET} {a : List Char} {net net1 : Net}
    (h : Delivered sock a net net1) (hg : ∀ f ∈ net.pending, goodSend f) :
    ∀ f ∈ net1.pending, goodSend f := by
  obtain ⟨_, used, _, hp, _, _, _⟩ := h
  intro f hf
  exact hg f (by rw [hp]; exact List.mem_append_right _ hf)

/-- A delivery uses at most one `send` call for each byte. -/
theorem Delivered.supply {sock : SOCKET} {a : List Char} {net net1 : Net}
    (h : Delivered sock a net net1) :
    net.pending.length ≤ a.length + net1.pending.length := by
  obtain ⟨_, used, _, hp, hl, _, _⟩ := h
  rw [hp, List.length_append]
  omega

/-- When every `send` call succeeds, `transmit` returns true, leaves the list
and the iterator alone, and has delivered `buff[0 .. len)`. -/
theorem transmit_ok (s : Sockets) (sock : SOCKET) (rest : List SOCKET) (buff : List Char)
    (len : Int) (net : Net) (hit : s.it = sock :: rest) (hlen : 0 ≤ len)
    (hg : ∀ f ∈ net.pending, goodSend f) (hsup : len.toNat ≤ net.pending.length)
    (hfit : len.toNat ≤ buff.length) :
    ∃ net1, transmit s buff len net = Except.ok (true, s, net1) ∧
      Delivered sock (buff.take len.toNat) net net1 := by
  obtain ⟨used, rest1, chunks, hused, hul, hrun, hflat⟩ :=
    transmitLoop_ok sock buff len net.pending 0 net.wire hg (le_refl _) hlen (by simpa using hsup)
  refine ⟨{ net with pending := rest1, wire := net.wire ++ chunks.map (fun c => (sock, c)) },
    ?_, rfl, used, chunks, hused, ?_, rfl, by simpa using hflat⟩
  · unfold transmit
    rw [hit]
    simp only [hrun]
  · simp only [List.length_take]
    have : used.length ≤ len.toNat := by simpa using hul
    omega

/-- A formatted line shorter than `BUFSIZE` is stored whole by `snprintf` and
delivered whole by the `transmit` call that follows. -/
theorem transmit_snprintf_ok (s : Sockets) (sock : SOCKET) (rest : List SOCKET)
    (text : List Char) (net : Net) (hit : s.it = sock :: rest)
    (hfit : text.length < BUFSIZE) (hg : ∀ f ∈ net.pending, goodSend f)
    (hsup : text.length ≤ net.pending.length) :
    ∃ net1, transmitBuff s (snprintf BUFSIZE text).1 (snprintf BUFSIZE text).2 net =
        Except.ok (true, s, net1) ∧ Delivered sock text net net1 := by
  have htake : text.take (BUFSIZE - 1) = text := List.take_of_length_le (by omega)
  have hstored : (snprintf BUFSIZE text).1 = text ++ [Char.ofNat 0] := by
    simp only [snprintf, htake]
  have hn : (snprintf BUFSIZE text).2 = (text.length : Int) := rfl
  rw [hstored, hn]
  obtain ⟨net1, hrun, hdel⟩ := transmit_ok s sock rest (text ++ [Char.ofNat 0])
    (text.length : Int) net hit (by omega) hg (by simpa using hsup) (by simp)
  refine ⟨net1, ?_, ?_⟩
  · unfold transmitBuff
    have hno : ¬ ((text.length : Int) > ((text ++ [Char.ofNat 0]).length : Int) ∨
        (text ++ [Char.ofNat 0]).length > BUFSIZE) := by
      simp only [List.length_append, List.length_cons, List.length_nil]
      push_cast
      omega
    rw [if_neg hno]
    exact hrun
  · have : (text ++ [Char.ofNat 0]).take ((text.length : Int)).toNat = text := by
      simp
    rw [this] at hdel
    exact hdel

/-- An email record that stays inside the buffer is delivered whole. -/
theorem transmit_email_ok (s : Sockets) (sock : SOCKET) (rest : List SOCKET)
    (str : List Char) (net : Net) (hit : s.it = sock :: rest)
    (hfit : (process_email str).len ≤ BUFSIZE) (hg : ∀ f ∈ net.pending, goodSend f)
    (hsup : (process_email str).bytes.length ≤ net.pending.length) :
    ∃ net1, transmitBuff s (process_email str).bytes (process_email str).len net =
        Except.ok (true, s, net1) ∧ Delivered sock (process_email str).bytes net net1 := by
  have hlen := (process_email_indices str).2
  obtain ⟨net1, hrun, hdel⟩ := transmit_ok s sock rest (process_email str).bytes
    ((process_email str).len : Int) net hit (by omega) hg (by simpa [hlen] using hsup)
    (by simp [hlen])
  refine ⟨net1, ?_, ?_⟩
  · unfold transmitBuff
    have hno : ¬ (((process_email str).len : Int) > ((process_email str).bytes.length : Int) ∨
        (process_email str).bytes.length > BUFSIZE) := by
      rw [hlen]
      omega
    rw [if_neg hno]
    exact hrun
  · have : (process_email str).bytes.take (((process_email str).len : Int)).toNat =
        (process_email str).bytes := by
      apply List.take_of_length_le
      simp [hlen]
    rw [this] at hdel
    exact hdel

/-- A string literal passed to `transmit` with its length is delivered whole. -/
theorem transmit_literal_ok (s : Sockets) (sock : SOCKET) (rest : List SOCKET)
    (text : List Char) (net : Net) (hit : s.it = sock :: rest)
    (hg : ∀ f ∈ net.pending, goodSend f) (hsup : text.length ≤ net.pending.length) :
    ∃ net1, transmit s text (text.length : Int) net = Except.ok (true, s, net1) ∧
      Delivered sock text net net1 := by
  obtain ⟨net1, hrun, hdel⟩ := transmit_ok s sock rest text (text.length : Int) net hit
    (by omega) hg (by simpa using hsup) (by simp)
  refine ⟨net1, hrun, ?_⟩
  have : text.take ((text.length : Int)).toNat = text := by simp
  rw [this] at hdel
  exact hdel

/-- The player loop delivers one line for each player that is not hidden. -/
theorem playersLoop_ok (getPlayerName : Player → List Char) (s : Sockets) (sock : SOCKET)
    (rest : List SOCKET) (hit : s.it = sock :: rest) :
    ∀ (players : List (CNSocket × Player)) (net : Net),
      (∀ f ∈ net.pending, goodSend f) →
      (∀ pair ∈ players, pair.2.hidden = false →
        (playerText getPlayerName pair.2).length < BUFSIZE) →
      ((players.filter (fun pair => !pair.2.hidden)).map
          (fun pair => playerText getPlayerName pair.2)).flatten.length ≤ net.pending.length →
      ∃ net1, playersLoop getPlayerName players s net = Except.ok (true, s, net1) ∧
        Delivered sock ((players.filter (fun pair => !pair.2.hidden)).map
          (fun pair => playerText getPlayerName pair.2)).flatten net net1 := by
  intro players
  induction players with
  | nil => intro net _ _ _; exact ⟨net, rfl, Delivered.refl sock net⟩
  | cons pair ps ih =>
    intro net hg hfit hsup
    have hfit2 : ∀ q ∈ ps, q.2.hidden = false →
        (playerText getPlayerName q.2).length < BUFSIZE :=
      fun q hq => hfit q (List.mem_cons_of_mem _ hq)
    by_cases hh : pair.2.hidden = true
    · have hf : (pair :: ps).filter (fun pair => !pair.2.hidden) =
          ps.filter (fun pair => !pair.2.hidden) := by
        simp [List.filter_cons, hh]
      rw [hf] at hsup ⊢
      obtain ⟨net1, hrun, hdel⟩ := ih net hg hfit2 hsup
      exact ⟨net1, by simp only [playersLoop, hh, if_true]; exact hrun, hdel⟩
    · have hv : pair.2.hidden = false := by simpa using hh
      have hf : (pair :: ps).filter (fun pair => !pair.2.hidden) =
          pair :: ps.filter (fun pair => !pair.2.hidden) := by
        simp [List.filter_cons, hv]
      rw [hf] at hsup ⊢
      simp only [List.map_cons, List.flatten_cons, List.length_append] at hsup ⊢
      obtain ⟨net1, hrun1, hdel1⟩ := transmit_snprintf_ok s sock rest
        (playerText getPlayerName pair.2) net hit (hfit pair (List.mem_cons_self _ _) hv) hg
        (by omega)
      have hs1 := hdel1.supply
      obtain ⟨net2, hrun2, hdel2⟩ := ih net1 (hdel1.good hg) hfit2 (by omega)
      refine ⟨net2, ?_, hdel1.trans hdel2⟩
      simp only [playersLoop, hv, Bool.false_eq_true, if_false, hrun1]
      exact hrun2

/-- The chat loop delivers one line for each entry of `Chat::dump`. -/
theorem chatLoop_ok (s : Sockets) (sock : SOCKET) (rest : List SOCKET)
    (hit : s.it = sock :: rest) :
    ∀ (chatDump : List (List Char)) (net : Net),
      (∀ f ∈ net.pending, goodSend f) →
      (∀ str ∈ chatDump, (chatText str).length < BUFSIZE) →
      (chatDump.map chatText).flatten.length ≤ net.pending.length →
      ∃ net1, chatLoop chatDump s net = Except.ok (true, s, net1) ∧
        Delivered sock (chatDump.map chatText).flatten net net1 := by
  intro chatDump
  induction chatDump with
  | nil => intro net _ _ _; exact ⟨net, rfl, Delivered.refl sock net⟩
  | cons str strs ih =>
    intro net hg hfit hsup
    simp only [List.map_cons, List.flatten_cons, List.length_append] at hsup ⊢
    obtain ⟨net1, hrun1, hdel1⟩ := transmit_snprintf_ok s sock rest (chatText str) net hit
      (hfit str (List.mem_cons_self _ _)) hg (by omega)
    have hs1 := hdel1.supply
    obtain ⟨net2, hrun2, hdel2⟩ := ih net1 (hdel1.good hg)
      (fun q hq => hfit q (List.mem_cons_of_mem _ hq)) (by omega)
    refine ⟨net2, ?_, hdel1.trans hdel2⟩
    simp only [chatLoop, hrun1]
    exact hrun2

/-- The email loop delivers, for each entry of `Email::dump`, its record and
an "endemail" line. -/
theorem emailsLoop_ok (s : Sockets) (sock : SOCKET) (rest : List SOCKET)
    (hit : s.it = sock :: rest) :
    ∀ (emailDump : List (List Char)) (net : Net),
      (∀ f ∈ net.pending, goodSend f) →
      (∀ str ∈ emailDump, (process_email str).len ≤ BUFSIZE) →
      (emailDump.map
          (fun str => (process_email str).bytes ++ "endemail\n".toList)).flatten.length
        ≤ net.pending.length →
      ∃ net1, emailsLoop emailDump s net = Except.ok (true, s, net1) ∧
        Delivered sock (emailDump.map
          (fun str => (process_email str).bytes ++ "endemail\n".toList)).flatten net net1 := by
  intro emailDump
  induction emailDump with
  | nil => intro net _ _ _; exact ⟨net, rfl, Delivered.refl sock net⟩
  | cons str strs ih =>
    intro net hg hfit hsup
    simp only [List.map_cons, List.flatten_cons, List.length_append] at hsup ⊢
    obtain ⟨net1, hrun1, hdel1⟩ := transmit_email_ok s sock rest str net hit
      (hfit str (List.mem_cons_self _ _)) hg (by omega)
    have hs1 := hdel1.supply
    obtain ⟨net2, hrun2, hdel2⟩ := transmit_literal_ok s sock rest "endemail\n".toList net1 hit
      (hdel1.good hg) (by omega)
    have hs2 := hdel2.supply
    obtain ⟨net3, hrun3, hdel3⟩ := ih net2 (hdel2.good (hdel1.good hg))
      (fun q hq => hfit q (List.mem_cons_of_mem _ hq)) (by omega)
    refine ⟨net3, ?_, (hdel1.trans hdel2).trans hdel3⟩
    have h9 : (("endemail\n".toList.length : Nat) : Int) = 9 := rfl
    rw [h9] at hrun2
    simp only [emailsLoop, hrun1, hrun2]
    exact hrun3

/-- One pass of the loop of `tick` in which every `send` call succeeds
delivers the frame to the subscriber under the iterator and reaches `it++`. -/
theorem tickBody_ok (getPlayerName : Player → List Char) (players : List (CNSocket × Player))
    (chatDump emailDump : List (List Char)) (s : Sockets) (sock : SOCKET)
    (rest : List SOCKET) (net : Net) (hit : s.it = sock :: rest)
    (hg : ∀ f ∈ net.pending, goodSend f)
    (hplayers : ∀ pair ∈ players, pair.2.hidden = false →
      (playerText getPlayerName pair.2).length < BUFSIZE)
    (hchat : ∀ str ∈ chatDump, (chatText str).length < BUFSIZE)
    (hemail : ∀ str ∈ emailDump, (process_email str).len ≤ BUFSIZE)
    (hsup : (specFrame getPlayerName players chatDump emailDump).length ≤ net.pending.length) :
    ∃ net1, tickBody getPlayerName players chatDump emailDump s net =
        Except.ok (true, s, net1) ∧
      Delivered sock (specFrame getPlayerName players chatDump emailDump) net net1 := by
  unfold specFrame at hsup ⊢
  simp only [List.length_append] at hsup
  obtain ⟨net1, hrun1, hdel1⟩ := transmit_literal_ok s sock rest "begin\n".toList net hit hg
    (by omega)
  have hs1 := hdel1.supply
  have hg1 := hdel1.good hg
  obtain ⟨net2, hrun2, hdel2⟩ := playersLoop_ok getPlayerName s sock rest hit players net1 hg1
    hplayers (by omega)
  have hs2 := hdel2.supply
  have hg2 := hdel2.good hg1
  obtain ⟨net3, hrun3, hdel3⟩ := chatLoop_ok s sock rest hit chatDump net2 hg2 hchat (by omega)
  have hs3 := hdel3.supply
  have hg3 := hdel3.good hg2
  obtain ⟨net4, hrun4, hdel4⟩ := emailsLoop_ok s sock rest hit emailDump net3 hg3 hemail
    (by omega)
  have hs4 := hdel4.supply
  have hg4 := hdel4.good hg3
  obtain ⟨net5, hrun5, hdel5⟩ := transmit_literal_ok s sock rest "end\n".toList net4 hit hg4
    (by omega)
  refine ⟨net5, ?_, (((hdel1.trans hdel2).trans hdel3).trans hdel4).trans hdel5⟩
  have h6 : (("begin\n".toList.length : Nat) : Int) = 6 := rfl
  have h4 : (("end\n".toList.length : Nat) : Int) = 4 := rfl
  rw [h6] at hrun1
  rw [h4] at hrun5
  simp only [tickBody, hrun1, hrun2, hrun3, hrun4]
  exact hrun5

/-- What a socket receives from two stretches of wire. -/
theorem received_append (t : SOCKET) (w1 w2 : List (SOCKET × List Char)) :
    received t (w1 ++ w2) = received t w1 ++ received t w2 := by
  simp [received, List.filter_append, List.flatMap_append]

/-- Chunks put on the wire for `sock` are received by `sock` and by no other socket. -/
theorem received_chunks (t sock : SOCKET) (chunks : List (List Char)) :
    received t (chunks.map (fun c => (sock, c))) = if sock = t then chunks.flatten else [] := by
  induction chunks with
  | nil => simp [received]
  | cons c cs ih =>
    by_cases h : sock = t
    · subst h
      simp only [if_true] at ih ⊢
      simp only [received, List.map_cons, List.filter_cons, beq_self_eq_true, if_true,
        List.flatMap_cons, List.flatten_cons]
      rw [← ih]
      rfl
    · simp only [h, if_false] at ih ⊢
      have hb : (sock == t) = false := by simpa using h
      simp only [received, List.map_cons, List.filter_cons, hb, Bool.false_eq_true, if_false]
      exact ih

/-- What one delivery adds to what each socket has received. -/
theorem Delivered.received {sock : SOCKET} {a : List Char} {net net1 : Net}
    (h : Delivered sock a net net1) (t : SOCKET) :
    received t net1.wire = received t net.wire ++ if sock = t then a else [] := by
  obtain ⟨_, used, chunks, _, _, hw, hf⟩ := h
  rw [hw, received_append, received_chunks, hf]

/-- The loop of `tick` when every `send` call succeeds: it visits every
subscriber from the iterator on, keeps them all, closes none, and each
receives the frame once for each time it is listed. -/
theorem tickLoop_ok (getPlayerName : Player → List Char) (players : List (CNSocket × Player))
    (chatDump emailDump : List (List Char))
    (hplayers : ∀ pair ∈ players, pair.2.hidden = false →
      (playerText getPlayerName pair.2).length < BUFSIZE)
    (hchat : ∀ str ∈ chatDump, (chatText str).length < BUFSIZE)
    (hemail : ∀ str ∈ emailDump, (process_email str).len ≤ BUFSIZE) :
    ∀ (subs before : List SOCKET) (passes : Nat) (net : Net),
      subs.length ≤ passes → (∀ f ∈ net.pending, goodSend f) →
      (specFrame getPlayerName players chatDump emailDump).length * subs.length
        ≤ net.pending.length →
      ∃ net1, tickLoop getPlayerName players chatDump emailDump passes
            { before := before, it := subs } net =
          Except.ok ({ before := before ++ subs, it := [] }, net1) ∧
        net1.closed = net.closed ∧
        ∀ t, received t net1.wire = received t net.wire ++
          (List.replicate (subs.count t)
            (specFrame getPlayerName players chatDump emailDump)).flatten := by
  intro subs
  induction subs with
  | nil =>
    intro before passes net _ _ _
    refine ⟨net, ?_, rfl, fun t => by simp⟩
    cases passes <;> simp [tickLoop]
  | cons sock rest ih =>
    intro before passes net hpass hg hsup
    cases passes with
    | zero => simp at hpass
    | succ p =>
      have hmul : (specFrame getPlayerName players chatDump emailDump).length
            * (sock :: rest).length =
          (specFrame getPlayerName players chatDump emailDump).length * rest.length +
            (specFrame getPlayerName players chatDump emailDump).length := by
        simp only [List.length_cons, Nat.mul_succ]
      rw [hmul] at hsup
      obtain ⟨net1, hrun1, hdel1⟩ := tickBody_ok getPlayerName players chatDump emailDump
        { before := before, it := sock :: rest } sock rest net rfl hg hplayers hchat hemail
        (by omega)
      have hs1 := hdel1.supply
      obtain ⟨net2, hrun2, hclosed2, hrecv2⟩ := ih (before ++ [sock]) p net1
        (by simpa using hpass) (hdel1.good hg) (by omega)
      refine ⟨net2, ?_, hclosed2.trans hdel1.1, ?_⟩
      · simp only [tickLoop, List.cons_ne_nil, if_false, hrun1, Sockets.next]
        rw [hrun2]
        simp
      · intro t
        rw [hrecv2 t, hdel1.received t, List.append_assoc]
        congr 1
        by_cases h : sock = t
        · subst h
          simp [List.replicate_succ]
        · have hb : (sock == t) = false := by simpa using h
          simp [h, List.count_cons, hb]

/-- Both buffers are empty after every `tick` that returns. -/
theorem tick_clears_dumps (getPlayerName : Player → List Char)
    (players : List (CNSocket × Player)) (chatDump emailDump : List (List Char))
    (sockets : List SOCKET) (net : Net) (r : TickResult)
    (h : tick getPlayerName players chatDump emailDump sockets net = Except.ok r) :
    r.chatDump = [] ∧ r.emailDump = [] := by
  unfold tick at h
  split at h
  · cases h
  · cases h
    exact ⟨rfl, rfl⟩

/-- C10 (amended): in a telemetry tick in which every `send` call succeeds
(each accepts between one and all of the bytes it is asked to send, and there
is a `send` result for every byte), and in which every formatted player and
chat line is shorter than `BUFSIZE` (2048) and every email record stays
within `BUFSIZE` bytes, `tick` returns, keeps all subscribers, closes none,
and each subscriber receives exactly the frame of the specification: "begin",
one player line for each player that is not hidden and none for a hidden one,
one chat line for each chat entry, for each email its record followed by
"endemail", and finally "end", in this order (once for each time the socket
is listed); after the tick the chat and email buffers are empty. -/
theorem tick_delivers_frame (getPlayerName : Player → List Char)
    (players : List (CNSocket × Player)) (chatDump emailDump : List (List Char))
    (sockets : List SOCKET) (net : Net)
    (hgood : ∀ f ∈ net.pending, goodSend f)
    (hsupply : (specFrame getPlayerName players chatDump emailDump).length * sockets.length
      ≤ net.pending.length)
    (hplayers : ∀ pair ∈ players, pair.2.hidden = false →
      (playerText getPlayerName pair.2).length < BUFSIZE)
    (hchat : ∀ str ∈ chatDump, (chatText str).length < BUFSIZE)
    (hemail : ∀ str ∈ emailDump, (process_email str).len ≤ BUFSIZE) :
    ∃ r, tick getPlayerName players chatDump emailDump sockets net = Except.ok r ∧
      r.sockets = sockets ∧ r.net.closed = net.closed ∧
      r.chatDump = [] ∧ r.emailDump = [] ∧
      ∀ t, received t r.net.wire = received t net.wire ++
        (List.replicate (sockets.count t)
          (specFrame getPlayerName players chatDump emailDump)).flatten := by
  obtain ⟨net1, hrun, hclosed, hrecv⟩ := tickLoop_ok getPlayerName players chatDump emailDump
    hplayers hchat hemail sockets [] sockets.length net (le_refl _) hgood hsupply
  refine ⟨{ sockets := sockets, net := net1, chatDump := [], emailDump := [] }, ?_, rfl,
    hclosed, rfl, rfl, hrecv⟩
  unfold tick
  rw [hrun]
  simp [Sockets.all]


/-- A `send` call that accepts everything requested succeeds. -/
theorem goodSend_replicate (k : Nat) : ∀ f ∈ List.replicate k (fun req : Int => req), goodSend f := by
  intro f hf
  rw [List.eq_of_mem_replicate hf]
  exact fun req hreq => ⟨hreq, le_refl _⟩

/-- Witness of `tick_delivers_frame`, the specification's telemetry scenario:
both subscribers are kept and subscriber 5 receives "begin", the three lines
of the visible players, the two chat lines, the email block with its indented
body, "endemail" and "end", in this order. -/
theorem tick_delivers_frame_witness :
    ∃ r, tick Player.nameData scenarioPlayers scenarioChat scenarioEmail [5, 6] scenarioNet =
        Except.ok r ∧
      r.sockets = [5, 6] ∧ r.chatDump = [] ∧ r.emailDump = [] ∧
      received 5 r.net.wire =
        ("begin\n" ++ "player 10 20 Ann\n" ++ "player -5 7 Bob\n" ++ "player 0 0 Cy\n"
          ++ "chat hi\n" ++ "chat bye\n" ++ "email Ann Bob\n\tendemail\n\tx\n" ++ "endemail\n"
          ++ "end\n").toList := by
  obtain ⟨r, h1, h2, _, h4, h5, h6⟩ :=
    tick_delivers_frame Player.nameData scenarioPlayers scenarioChat scenarioEmail [5, 6]
      scenarioNet (goodSend_replicate 400) (by decide) (by decide) (by decide) (by decide)
  refine ⟨r, h1, h2, h4, h5, ?_⟩
  rw [h6 5]
  decide


/-- A formatted line of exactly `BUFSIZE` characters: `snprintf` stores its
first `BUFSIZE − 1` characters and a NUL and returns `BUFSIZE`, and the
`transmit` call that follows delivers these `BUFSIZE` stored bytes. -/
theorem transmit_snprintf_cut (s : Sockets) (sock : SOCKET) (rest : List SOCKET)
    (text : List Char) (net : Net) (hit : s.it = sock :: rest)
    (hlen : text.length = BUFSIZE) (hg : ∀ f ∈ net.pending, goodSend f)
    (hsup : BUFSIZE ≤ net.pending.length) :
    ∃ net1, transmitBuff s (snprintf BUFSIZE text).1 (snprintf BUFSIZE text).2 net =
        Except.ok (true, s, net1) ∧
      Delivered sock (text.take (BUFSIZE - 1) ++ [Char.ofNat 0]) net net1 := by
  have hstored : (snprintf BUFSIZE text).1 = text.take (BUFSIZE - 1) ++ [Char.ofNat 0] := rfl
  have hn : (snprintf BUFSIZE text).2 = (BUFSIZE : Int) := by
    simp only [snprintf, hlen]
  have hsl : (text.take (BUFSIZE - 1) ++ [Char.ofNat 0]).length = BUFSIZE := by
    simp only [List.length_append, List.length_take, hlen, List.length_cons, List.length_nil]
    decide
  rw [hstored, hn]
  obtain ⟨net1, hrun, hdel⟩ := transmit_ok s sock rest
    (text.take (BUFSIZE - 1) ++ [Char.ofNat 0]) (BUFSIZE : Int) net hit (by omega) hg
    (by simpa using hsup) (by rw [hsl]; simp)
  refine ⟨net1, ?_, ?_⟩
  · unfold transmitBuff
    have hno : ¬ ((BUFSIZE : Int) > ((text.take (BUFSIZE - 1) ++ [Char.ofNat 0]).length : Int) ∨
        (text.take (BUFSIZE - 1) ++ [Char.ofNat 0]).length > BUFSIZE) := by
      rw [hsl]
      omega
    rw [if_neg hno]
    exact hrun
  · have : (text.take (BUFSIZE - 1) ++ [Char.ofNat 0]).take ((BUFSIZE : Int)).toNat =
        text.take (BUFSIZE - 1) ++ [Char.ofNat 0] := by
      apply List.take_of_length_le
      rw [hsl]
      simp
    rw [this] at hdel
    exact hdel

/-- The chat line of a message of 2042 letters has exactly `BUFSIZE` characters. -/
theorem chatText_long_length : (chatText (List.replicate 2042 'a')).length = BUFSIZE := by
  have hc : c_str (List.replicate 2042 'a') = List.replicate 2042 'a' := by
    unfold c_str
    rw [List.takeWhile_eq_self_iff]
    intro c hc
    rw [List.eq_of_mem_replicate hc]
    decide
  simp only [chatText, hc, List.length_append, List.length_replicate]
  decide

/-- A tick for one subscriber with one chat message whose line has exactly
`BUFSIZE` characters, when every `send` call succeeds: the subscriber
receives the cut line with a NUL in place of its line feed, which is not the
frame of the specification. -/
theorem tick_cut_line (getPlayerName : Player → List Char) (msg : List Char) (sock : SOCKET)
    (pending : List (Int → Int)) (hlen : (chatText msg).length = BUFSIZE)
    (hg : ∀ f ∈ pending, goodSend f) (hsup : BUFSIZE + 10 ≤ pending.length) :
    ∃ r, tick getPlayerName [] [msg] [] [sock]
          { pending := pending, wire := [], closed := [] } = Except.ok r ∧
      received sock r.net.wire =
        "begin\n".toList ++ ((chatText msg).take (BUFSIZE - 1) ++ [Char.ofNat 0])
          ++ "end\n".toList ∧
      received sock r.net.wire ≠ specFrame getPlayerName [] [msg] [] := by
  have hg0 : ∀ f ∈ ({ pending := pending, wire := [], closed := [] } : Net).pending,
      goodSend f := hg
  have h6 : "begin\n".toList.length = 6 := rfl
  have h4 : "end\n".toList.length = 4 := rfl
  obtain ⟨net1, hrun1, hdel1⟩ := transmit_literal_ok { before := [], it := [sock] } sock []
    "begin\n".toList { pending := pending, wire := [], closed := [] } rfl hg0
    (by rw [h6]; show 6 ≤ pending.length; omega)
  have hs1 : pending.length ≤ "begin\n".toList.length + net1.pending.length := hdel1.supply
  rw [h6] at hs1
  obtain ⟨net2, hrun2, hdel2⟩ := transmit_snprintf_cut { before := [], it := [sock] } sock []
    (chatText msg) net1 rfl hlen (hdel1.good hg0) (by omega)
  have hs2 := hdel2.supply
  have hcut : ((chatText msg).take (BUFSIZE - 1) ++ [Char.ofNat 0]).length = BUFSIZE := by
    simp only [List.length_append, List.length_take, hlen, List.length_cons, List.length_nil]
    decide
  rw [hcut] at hs2
  obtain ⟨net3, hrun3, hdel3⟩ := transmit_literal_ok { before := [], it := [sock] } sock []
    "end\n".toList net2 rfl (hdel2.good (hdel1.good hg0)) (by rw [h4]; omega)
  have hb : (("begin\n".toList.length : Nat) : Int) = 6 := rfl
  have he : (("end\n".toList.length : Nat) : Int) = 4 := rfl
  rw [hb] at hrun1
  rw [he] at hrun3
  have hbody : tickBody getPlayerName [] [msg] [] { before := [], it := [sock] }
      { pending := pending, wire := [], closed := [] } =
      Except.ok (true, { before := [], it := [sock] }, net3) := by
    simp only [tickBody, hrun1, playersLoop, chatLoop, hrun2, emailsLoop]
    exact hrun3
  have hrecv := ((hdel1.trans hdel2).trans hdel3).received sock
  simp only [received, List.filter_nil, List.flatMap_nil, List.nil_append, if_true] at hrecv
  have hrecv2 : received sock net3.wire =
      "begin\n".toList ++ ((chatText msg).take (BUFSIZE - 1) ++ [Char.ofNat 0])
        ++ "end\n".toList := hrecv
  refine ⟨{ sockets := [sock], net := net3, chatDump := [], emailDump := [] }, ?_, hrecv2, ?_⟩
  · simp [tick, tickLoop, hbody, Sockets.next, Sockets.all]
  · show received sock net3.wire ≠ _
    rw [hrecv2]
    intro heq
    simp only [specFrame, List.filter_nil, List.map_nil, List.flatten_nil, List.append_nil,
      List.map_cons, List.flatten_cons, List.append_assoc, List.append_cancel_left_eq] at heq
    rw [← List.append_assoc] at heq
    have hlast := congrArg List.getLast? (List.append_cancel_right heq)
    have e : chatText msg = ("chat ".toList ++ c_str msg) ++ ['\n'] := by
      simp [chatText]
    rw [List.getLast?_concat] at hlast
    rw [e, List.getLast?_concat] at hlast
    revert hlast
    decide

/-- C10, as stated, fails when a formatted line does not fit the buffer.  One
subscriber, no player, no email, one chat message of 2042 letters, every
`send` call accepting all it is asked to send: the chat line "chat MSG\n" has
2048 characters, `snprintf` stores 2047 of them and a NUL, and the subscriber
receives, between "begin\n" and "end\n", these 2048 bytes, which end with the
NUL and not with the line feed of a chat record. -/
theorem tick_cuts_long_chat_line :
    (∀ f ∈ List.replicate 3000 (fun req : Int => req), goodSend f) ∧
    ∃ r, tick Player.nameData [] [List.replicate 2042 'a'] [] [5]
          { pending := List.replicate 3000 (fun req => req), wire := [], closed := [] } =
        Except.ok r ∧
      received 5 r.net.wire =
        "begin\n".toList ++ ((chatText (List.replicate 2042 'a')).take (BUFSIZE - 1)
          ++ [Char.ofNat 0]) ++ "end\n".toList ∧
      received 5 r.net.wire ≠ specFrame Player.nameData [] [List.replicate 2042 'a'] [] :=
  ⟨goodSend_replicate 3000,
    tick_cut_line Player.nameData (List.replicate 2042 'a') 5
      (List.replicate 3000 (fun req => req)) chatText_long_length (goodSend_replicate 3000)
      (by rw [List.length_replicate]; decide)⟩

end Monitor
